import Mathlib

/-!
Shallow embedding of the Intrepid2 Polylib serial kernels
(packages/intrepid2/src/Shared/Intrepid2_PolylibDef.hpp) over exact rational
arithmetic.  Doubles are modelled by ℚ; the Kokkos views are modelled by
Lean lists (output buffers are passed in and returned).  The process-wide
constants MaxPolylibPoint, MaxPolylibIteration and the tolerance, whose
values are declared outside this translation unit, are parameters of the
embedding (maxPoint, maxIter, tol).  Transcendental scalar helpers that a
rational model cannot evaluate (sqrt, cos, pow with rational exponent, and
the Gamma normalisation constants inside the quadrature and eigensolver
routines) are supplied as oracle parameters (sqrtF, pow2F, gammaF, guess);
the claims settled here do not depend on the values those oracles return.
Fatal INTREPID2_TEST_FOR_ABORT exits are modelled by Except.error.
-/

namespace Polylib

/-- Abort causes raised through INTREPID2_TEST_FOR_ABORT in the modelled code. -/
inductive PolyAbort where
  | misuse
  | orderExceeded
  | tooManyIterations
  deriving DecidableEq, Repr

/-- Result of GammaFunction: a value a + b·sqrt(pi) represented by the pair
(a, b) of rationals, a fatal abort, or the undefined behaviour of the
while loop with a negative counter (decrementing an int below every bound). -/
inductive GammaValue where
  | val (rat : ℚ) (sqrtPiCoeff : ℚ)
  | abort
  | undef
  deriving DecidableEq, Repr

/-- Meaning of a GammaValue as a real number (when it is a value). -/
noncomputable def GammaValue.interp : GammaValue → Option ℝ
  | .val a b => some (a + b * Real.sqrt Real.pi)
  | _ => none

/-- Truncation toward zero, the effect of the C cast (ordinal_type)x on a double. -/
def qtrunc (x : ℚ) : ℤ := if 0 ≤ x then ⌊x⌋ else ⌈x⌉

/-- Value accumulated by the loop `while (cnt) { tmp -= 1.0; gamma *= tmp; }`
run n times starting from gamma = 1 and tmp = x: the product (x-1)(x-2)...(x-n). -/
def descProd (x : ℚ) (n : ℕ) : ℚ :=
  (List.range n).foldl (fun (g : ℚ) (j : ℕ) => g * (x - ((j : ℚ) + 1))) 1

/-- Polylib::Serial::GammaFunction (source lines 850-881).  Special cases for
-0.5 and 0; the half-integer branch multiplies sqrt(pi) by trunc(x) descending
factors; the integer branch runs the analogous loop trunc(x)-1 times.  For a
negative integer argument the `while (--n)` loop decrements its int counter
past every bound (undefined behaviour), modelled by `undef`; any other
argument hits the fatal abort. -/
def GammaFunction (x : ℚ) : GammaValue :=
  if x = -(1/2) then .val 0 (-2)
  else if x = 0 then .val 1 0
  else if x - qtrunc x = 1/2 then
    .val 0 (descProd x (qtrunc x).toNat)
  else if x - qtrunc x = 0 then
    if 1 ≤ qtrunc x then .val (descProd x ((qtrunc x).toNat - 1)) 0
    else .undef
  else .abort

/-- List of length l.length obtained by rewriting entry i with f i v; index
threading helper for the buffer-writing loops. -/
def mapIdxGo (f : ℕ → ℚ → ℚ) : ℕ → List ℚ → List ℚ
  | _, [] => []
  | i, v :: t => f i v :: mapIdxGo f (i + 1) t

/-- Overwrite buffer entries start ≤ i < start + cnt with g (i - start),
leaving all other entries unchanged (a loop writing through a subview). -/
def writeSeg (start cnt : ℕ) (g : ℕ → ℚ) (buf : List ℚ) : List ℚ :=
  mapIdxGo (fun i v => if start ≤ i ∧ i < start + cnt then g (i - start) else v) 0 buf

/-- Overwrite buffer entries i < np with g i (a loop `for (i = 0; i < np; ++i)`). -/
def writeN (np : ℕ) (g : ℕ → ℚ) (buf : List ℚ) : List ℚ :=
  writeSeg 0 np g buf

/-- Denominator a1 of the recurrence coefficients (source line 617). -/
def a1v (k : ℕ) (α β : ℚ) : ℚ := 2 * k * (k + α + β) * (2 * k + α + β - 2)

/-- Coefficient a2[k-2] (source line 618). -/
def a2v (k : ℕ) (α β : ℚ) : ℚ :=
  (2 * k + α + β - 1) * ((α + β) * (α - β)) / a1v k α β

/-- Coefficient a3[k-2] (source line 619). -/
def a3v (k : ℕ) (α β : ℚ) : ℚ :=
  (2 * k + α + β - 2) * (2 * k + α + β - 1) * (2 * k + α + β) / a1v k α β

/-- Coefficient a4[k-2] (source line 620). -/
def a4v (k : ℕ) (α β : ℚ) : ℚ :=
  2 * (k + α - 1) * (k + β - 1) * (2 * k + α + β) / a1v k α β

/-- Value chain polyn2/polyn1/polyn0 of JacobiPolynomial (source lines 630-640):
base cases 1 and 0.5(alpha - beta + (alpha + beta + 2) z), then the three-term
recurrence with coefficients a2, a3, a4. -/
def jacP (α β z : ℚ) : ℕ → ℚ
  | 0 => 1
  | 1 => (1/2) * (α - β + (α + β + 2) * z)
  | (n + 2) =>
    (a2v (n + 2) α β + a3v (n + 2) α β * z) * jacP α β z (n + 1) -
      a4v (n + 2) α β * jacP α β z n

/-- Auxiliary top-degree derivative term written into polyd for degree n ≥ 2
(source lines 623-628 and 641-643), with the C precedence
(ad1 - ad2 z) polyn0 + (ad3 polyn1) / (1 - z z). -/
def jacDTop (α β z : ℚ) (n : ℕ) : ℚ :=
  (n * (α - β) / (2 * n + α + β) - n * (2 * n + α + β) / (2 * n + α + β) * z) *
      jacP α β z n +
    2 * (n + α) * (n + β) / (2 * n + α + β) * jacP α β z (n - 1) / (1 - z * z)

/-- Polylib::Serial::JacobiPolynomial (source lines 567-647).  Buffers polyi
and polyd are optional (a `none` models a null view).  The first abort guard
(source line 601) tests `polyd.data() && !polyd.data()`, transcribed verbatim:
the condition is identically false, so the Misuse abort can never fire; when
the value buffer is absent the routine returns silently.  maxOrder is
2 maxPoint - 1 (source line 605). -/
def JacobiPolynomial (maxPoint np : ℕ) (z : List ℚ) (polyi polyd : Option (List ℚ))
    (n : ℕ) (α β : ℚ) : Except PolyAbort (Option (List ℚ) × Option (List ℚ)) :=
  if np = 0 then .ok (polyi, polyd)
  else if n = 0 then
    .ok (polyi.map (writeN np (fun _ => 1)), polyd.map (writeN np (fun _ => 0)))
  else if n = 1 then
    .ok (polyi.map (writeN np (fun i => (1/2) * (α - β + (α + β + 2) * z.getD i 0))),
         polyd.map (writeN np (fun _ => (1/2) * (α + β + 2))))
  else if polyd.isSome ∧ ¬ polyd.isSome then .error .misuse
  else if polyi.isNone then .ok (polyi, polyd)
  else if 2 * maxPoint - 1 < n then .error .orderExceeded
  else
    .ok (polyi.map (writeN np (fun i => jacP α β (z.getD i 0) n)),
         polyd.map (writeN np (fun i => jacDTop α β (z.getD i 0) n)))

/-- Polylib::Serial::JacobiPolynomialDerivative (source lines 649-670):
degree 0 writes zeros; otherwise delegate to JacobiPolynomial with degree
n - 1 and parameters alpha + 1, beta + 1, then scale by 0.5(alpha + beta + n + 1). -/
def JacobiPolynomialDerivative (maxPoint np : ℕ) (z : List ℚ) (polyd : List ℚ)
    (n : ℕ) (α β : ℚ) : Except PolyAbort (List ℚ) :=
  if n = 0 then .ok (writeN np (fun _ => 0) polyd)
  else
    match JacobiPolynomial maxPoint np z (some polyd) none (n - 1) (α + 1) (β + 1) with
    | .error a => .error a
    | .ok (pi, _) =>
      let buf := pi.getD polyd
      .ok (writeN np (fun i => buf.getD i 0 * ((1/2) * (α + β + n + 1))) buf)

/-- Values (P_n, top-degree derivative term) produced by the call
JacobiPolynomial(1, r, poly, pder, n, alpha, beta) inside the Newton loop,
for the degrees at which that call does not abort.  (For n ≥ 2 the call
aborts when maxOrder < n; that condition does not depend on the iterate and
is hoisted into JacobiZerosPolyDeflation.) -/
def jacPolyPair (α β r : ℚ) : ℕ → ℚ × ℚ
  | 0 => (1, 0)
  | 1 => ((1/2) * (α - β + (α + β + 2) * r), (1/2) * (α + β + 2))
  | (m + 2) => (jacP α β r (m + 2), jacDTop α β r (m + 2))

/-- One Newton update delr of the deflated iteration (source lines 718-724):
delr = -poly / (pder - sum poly) with sum the deflation term over the
already accepted roots zs. -/
def newtonStep (n : ℕ) (α β : ℚ) (zs : List ℚ) (r : ℚ) : ℚ :=
  -(jacPolyPair α β r n).1 /
    ((jacPolyPair α β r n).2 - (zs.map (fun zi => 1 / (r - zi))).sum * (jacPolyPair α β r n).1)

/-- Inner Newton loop (source lines 717-729), `for (j = 1; j < MaxPolylibIteration; ++j)`,
so fuel = maxIter - 1 body executions at most.  Returns the final iterate, the
number of body executions, whether the loop stopped through the tolerance
test, and the last update delr. -/
def newtonLoop (tol : ℚ) (n : ℕ) (α β : ℚ) (zs : List ℚ) : ℕ → ℚ → ℚ × ℕ × Bool × ℚ
  | 0, r => (r, 0, false, 0)
  | (fuel + 1), r =>
    let delr := newtonStep n α β zs r
    let r2 := r + delr
    if |delr| < tol then (r2, 1, true, delr)
    else
      let rest := newtonLoop tol n α β zs fuel r2
      (rest.1, rest.2.1 + 1, rest.2.2)

/-- Roots accepted after the first k passes of the outer loop of
JacobiZerosPolyDeflation (source lines 711-732).  The starting iterate of
pass k is guess k (modelling -cos((2k+1) pi / 2n)), averaged with the
previously accepted root when k > 0. -/
def deflRootsAux (guess : ℕ → ℚ) (tol : ℚ) (fuel n : ℕ) (α β : ℚ) : ℕ → List ℚ
  | 0 => []
  | (k + 1) =>
    let zs := deflRootsAux guess tol fuel n α β k
    let r0 := if k = 0 then guess 0 else (1/2) * (guess k + zs.getD (k - 1) 0)
    zs ++ [(newtonLoop tol n α β zs fuel r0).1]

/-- Polylib::Serial::JacobiZerosPolyDeflation (source lines 689-733).  The
JacobiPolynomial call inside the loop aborts exactly when n ≥ 2 and
maxOrder < n, independent of the iterate, modelled by the up-front check.
Roots are stored in z(0..n-1); entries beyond n are untouched. -/
def JacobiZerosPolyDeflation (guess : ℕ → ℚ) (tol : ℚ) (maxIter maxPoint : ℕ)
    (z : List ℚ) (n : ℕ) (α β : ℚ) : Except PolyAbort (List ℚ) :=
  if n = 0 then .ok z
  else if 2 ≤ n ∧ 2 * maxPoint - 1 < n then .error .orderExceeded
  else
    .ok (writeN n (fun k => (deflRootsAux guess tol (maxIter - 1) n α β n).getD k 0) z)

/-- Polylib::Serial::Cubature(GAUSS_RADAU_LEFT)::getValues (source lines
103-136).  gammaF, pow2F are oracles for GammaFunction and pow(2, .), jz for
the JacobiZeros output (irrational in general); the np = 1 branch returns the
single point rule directly. -/
def CubatureGaussRadauLeft (gammaF pow2F : ℚ → ℚ) (jz : ℕ → ℚ → ℚ → List ℚ)
    (maxPoint np : ℕ) (z w : List ℚ) (α β : ℚ) :
    Except PolyAbort (List ℚ × List ℚ) :=
  if np = 1 then .ok (z.set 0 0, w.set 0 2)
  else
    let z2 := writeSeg 1 (np - 1) (fun j => (jz (np - 1) α (β + 1)).getD j 0) (z.set 0 (-1))
    match JacobiPolynomial maxPoint np z2 (some w) none (np - 1) α β with
    | .error a => .error a
    | .ok (pi, _) =>
      let w1 := pi.getD w
      let fac := pow2F (α + β) * gammaF (α + np) * gammaF (β + np) /
        (gammaF np * (β + np) * gammaF (α + β + np + 1))
      let w2 := writeN np (fun i => fac * (1 - z2.getD i 0) / (w1.getD i 0 * w1.getD i 0)) w1
      .ok (z2, w2.set 0 (w2.getD 0 0 * (β + 1)))

/-- Polylib::Serial::Cubature(GAUSS_RADAU_RIGHT)::getValues (source lines
138-169). -/
def CubatureGaussRadauRight (gammaF pow2F : ℚ → ℚ) (jz : ℕ → ℚ → ℚ → List ℚ)
    (maxPoint np : ℕ) (z w : List ℚ) (α β : ℚ) :
    Except PolyAbort (List ℚ × List ℚ) :=
  if np = 1 then .ok (z.set 0 0, w.set 0 2)
  else
    let z2 := (writeSeg 0 (np - 1) (fun j => (jz (np - 1) (α + 1) β).getD j 0) z).set (np - 1) 1
    match JacobiPolynomial maxPoint np z2 (some w) none (np - 1) α β with
    | .error a => .error a
    | .ok (pi, _) =>
      let w1 := pi.getD w
      let fac := pow2F (α + β) * gammaF (α + np) * gammaF (β + np) /
        (gammaF np * (α + np) * gammaF (α + β + np + 1))
      let w2 := writeN np (fun i => fac * (1 + z2.getD i 0) / (w1.getD i 0 * w1.getD i 0)) w1
      .ok (z2, w2.set (np - 1) (w2.getD (np - 1) 0 * (α + 1)))

/-- Polylib::Serial::Cubature(GAUSS_LOBATTO)::getValues (source lines
171-207): both endpoints fixed, interior zeros from JacobiZeros(np-2,
alpha+1, beta+1), weights fac / w(i)^2 with the (beta+1) and (alpha+1)
endpoint factors applied afterwards. -/
def CubatureGaussLobatto (gammaF pow2F : ℚ → ℚ) (jz : ℕ → ℚ → ℚ → List ℚ)
    (maxPoint np : ℕ) (z w : List ℚ) (α β : ℚ) :
    Except PolyAbort (List ℚ × List ℚ) :=
  if np = 1 then .ok (z.set 0 0, w.set 0 2)
  else
    let z2 := writeSeg 1 (np - 2) (fun j => (jz (np - 2) (α + 1) (β + 1)).getD j 0)
      ((z.set 0 (-1)).set (np - 1) 1)
    match JacobiPolynomial maxPoint np z2 (some w) none (np - 1) α β with
    | .error a => .error a
    | .ok (pi, _) =>
      let w1 := pi.getD w
      let fac := pow2F (α + β + 1) * gammaF (α + np) * gammaF (β + np) /
        ((np - 1 : ℚ) * gammaF np * gammaF (α + β + np + 1))
      let w2 := writeN np (fun i => fac / (w1.getD i 0 * w1.getD i 0)) w1
      let w3 := w2.set 0 (w2.getD 0 0 * (β + 1))
      .ok (z2, w3.set (np - 1) (w3.getD (np - 1) 0 * (α + 1)))

/-- Dense matrix state for the differentiation-matrix routines: entry (i, j)
of the Kokkos view D, as a total function with junk outside the written part. -/
def Mat : Type := ℕ → ℕ → ℚ

/-- Single matrix store D(r, c) = v. -/
def mset (D : Mat) (r c : ℕ) (v : ℚ) : Mat :=
  fun i j => if i = r ∧ j = c then v else D i j

/-- Pointwise function update f(i) = v. -/
def updF (f : ℕ → ℚ) (i : ℕ) (v : ℚ) : ℕ → ℚ :=
  fun j => if j = i then v else f j

/-- Segment update: f(j) = g(j - start) for start ≤ j < start + cnt. -/
def updSeg (f : ℕ → ℚ) (start cnt : ℕ) (g : ℕ → ℚ) : ℕ → ℚ :=
  fun j => if start ≤ j ∧ j < start + cnt then g (j - start) else f j

/-- Store the derivative weights pd into the last row of the matrix
(the subview pd = D(np-1, 0..np-1) that the implementation reuses as scratch). -/
def storeLast (np : ℕ) (pdf : ℕ → ℚ) (D : Mat) : Mat :=
  fun i j => if i = np - 1 ∧ j < np then pdf j else D i j

/-- Off-diagonal entry formula D(r, c) = pd(r) / (pd(c) (z(r) - z(c)))
(source lines 240-241 and the three analogous loops). -/
def offV (pdf z : ℕ → ℚ) (r c : ℕ) : ℚ :=
  pdf r / (pdf c * (z r - z c))

/-- Inner loop of Derivative::getValues processing columns j = 0..m-1 for the
fixed row index i, reading the derivative weights through the last matrix row
(the aliased scratch) exactly where the source reads pd(j), pd(i), and
storing D(j, i) then D(i, j) (source lines 234-242). -/
def innerA (np i : ℕ) (z : ℕ → ℚ) (D : Mat) : ℕ → Mat
  | 0 => D
  | (j + 1) =>
    let Dp := innerA np i z D j
    let D1 := mset Dp j i (Dp (np - 1) j / (Dp (np - 1) i * (z j - z i)))
    mset D1 i j (D1 (np - 1) i / (D1 (np - 1) j * (z i - z j)))

/-- Outer loop of Derivative::getValues over rows i = 0..m-1: inner loop over
j < i, then the closed-form diagonal write D(i, i) (source lines 234-244). -/
def outerA (np : ℕ) (z diagf : ℕ → ℚ) (D : Mat) : ℕ → Mat
  | 0 => D
  | (i + 1) =>
    mset (innerA np i z (outerA np z diagf D i) i) i i (diagf i)

/-- Reference differentiation matrix built from a separate pd buffer, following
the specification: off-diagonal pd(r) / (pd(c)(z(r) - z(c))), closed-form
diagonal, untouched entries keep the initial matrix contents. -/
def refMat (np : ℕ) (pdf z diagf : ℕ → ℚ) (D0 : Mat) : Mat :=
  fun r c =>
    if r < np ∧ c < np then (if r = c then diagf r else offV pdf z r c) else D0 r c

/-- Derivative weights of the GAUSS variant (source lines 229-230):
JacobiPolynomialDerivative of degree np at the np nodes, written over the
scratch row r0. -/
def pdGaussF (maxPoint np : ℕ) (z : List ℚ) (α β : ℚ) (r0 : ℕ → ℚ) :
    Except PolyAbort (ℕ → ℚ) :=
  match JacobiPolynomialDerivative maxPoint np z (List.replicate np 0) np α β with
  | .error a => .error a
  | .ok tl => .ok (updSeg r0 0 np (fun j => tl.getD j 0))

/-- Derivative weights of the GAUSS_RADAU_LEFT variant (source lines 264-272):
closed-form pd(0), JacobiPolynomialDerivative(np-1, alpha, beta+1) into
pd(1..np-1), then the (1 + z(i)) scaling. -/
def pdRadauLeftF (gammaF : ℚ → ℚ) (maxPoint np : ℕ) (z : List ℚ) (α β : ℚ)
    (r0 : ℕ → ℚ) : Except PolyAbort (ℕ → ℚ) :=
  let f1 := updF r0 0 ((-1 : ℚ) ^ (np - 1) * gammaF (np + β + 1) /
    (gammaF np * gammaF (β + 2)))
  match JacobiPolynomialDerivative maxPoint (np - 1) (z.drop 1)
      (List.replicate (np - 1) 0) (np - 1) α (β + 1) with
  | .error a => .error a
  | .ok tl =>
    let f2 := updSeg f1 1 (np - 1) (fun j => tl.getD j 0)
    .ok (fun j => if 1 ≤ j ∧ j < np then f2 j * (1 + z.getD j 0) else f2 j)

/-- Derivative weights of the GAUSS_RADAU_RIGHT variant (source lines 309-315). -/
def pdRadauRightF (gammaF : ℚ → ℚ) (maxPoint np : ℕ) (z : List ℚ) (α β : ℚ)
    (r0 : ℕ → ℚ) : Except PolyAbort (ℕ → ℚ) :=
  match JacobiPolynomialDerivative maxPoint (np - 1) z
      (List.replicate (np - 1) 0) (np - 1) (α + 1) β with
  | .error a => .error a
  | .ok tl =>
    let f1 := updSeg r0 0 (np - 1) (fun j => tl.getD j 0)
    let f2 := fun j => if j < np - 1 then f1 j * (1 - z.getD j 0) else f1 j
    .ok (updF f2 (np - 1) (-gammaF (np + α + 1) / (gammaF np * gammaF (α + 2))))

/-- Derivative weights of the GAUSS_LOBATTO variant (source lines 352-367). -/
def pdLobattoF (gammaF : ℚ → ℚ) (maxPoint np : ℕ) (z : List ℚ) (α β : ℚ)
    (r0 : ℕ → ℚ) : Except PolyAbort (ℕ → ℚ) :=
  let f1 := updF r0 0 (2 * (-1 : ℚ) ^ np * gammaF (np + β) /
    (gammaF (np - 1) * gammaF (β + 2)))
  match JacobiPolynomialDerivative maxPoint (np - 2) (z.drop 1)
      (List.replicate (np - 2) 0) (np - 2) (α + 1) (β + 1) with
  | .error a => .error a
  | .ok tl =>
    let f2 := updSeg f1 1 (np - 2) (fun j => tl.getD j 0)
    let f3 := fun j => if 1 ≤ j ∧ j < np - 1
      then f2 j * (1 - z.getD j 0 * z.getD j 0) else f2 j
    .ok (updF f3 (np - 1) (-2 * gammaF (np + α) / (gammaF (np - 1) * gammaF (α + 2))))

/-- Diagonal formula of the GAUSS variant (source line 243). -/
def diagGauss (np : ℕ) (z : List ℚ) (α β : ℚ) (i : ℕ) : ℚ :=
  (α - β + (α + β + 2) * z.getD i 0) / (2 * (1 - z.getD i 0 * z.getD i 0))

/-- Diagonal formula of the GAUSS_RADAU_LEFT variant (source lines 285-288). -/
def diagRadauLeft (np : ℕ) (z : List ℚ) (α β : ℚ) (i : ℕ) : ℚ :=
  if i = 0 then -((np : ℚ) + α + β + 1) * ((np : ℚ) - 1) / (2 * (β + 2))
  else (α - β + 1 + (α + β + 1) * z.getD i 0) / (2 * (1 - z.getD i 0 * z.getD i 0))

/-- Diagonal formula of the GAUSS_RADAU_RIGHT variant (source lines 328-331). -/
def diagRadauRight (np : ℕ) (z : List ℚ) (α β : ℚ) (i : ℕ) : ℚ :=
  if i = np - 1 then ((np : ℚ) + α + β + 1) * ((np : ℚ) - 1) / (2 * (α + 2))
  else (α - β - 1 + (α + β + 1) * z.getD i 0) / (2 * (1 - z.getD i 0 * z.getD i 0))

/-- Diagonal formula of the GAUSS_LOBATTO variant (source lines 380-385). -/
def diagLobatto (np : ℕ) (z : List ℚ) (α β : ℚ) (i : ℕ) : ℚ :=
  if i = 0 then (α - ((np : ℚ) - 1) * ((np : ℚ) + α + β)) / (2 * (β + 2))
  else if i = np - 1 then -(β - ((np : ℚ) - 1) * ((np : ℚ) + α + β)) / (2 * (α + 2))
  else (α - β + (α + β) * z.getD i 0) / (2 * (1 - z.getD i 0 * z.getD i 0))

/-- Aliased Derivative::getValues: derivative weights are computed over the
scratch last row of D (initial contents D(np-1, .)), stored there, and the
main loop reads them back through the matrix. -/
def derivativeAliased (pdv : (ℕ → ℚ) → Except PolyAbort (ℕ → ℚ))
    (np : ℕ) (z : List ℚ) (diagf : ℕ → ℚ) (D0 : Mat) : Except PolyAbort Mat :=
  if np = 0 then .ok (mset D0 0 0 0)
  else
    match pdv (fun c => D0 (np - 1) c) with
    | .error a => .error a
    | .ok pdf => .ok (outerA np (fun i => z.getD i 0) diagf (storeLast np pdf D0) np)

/-- Reference Derivative::getValues with pd held in a separate zero-initialised
buffer, per the specification; the matrix entries are written directly from
the closed formulas. -/
def derivativeRef (pdv : (ℕ → ℚ) → Except PolyAbort (ℕ → ℚ))
    (np : ℕ) (z : List ℚ) (diagf : ℕ → ℚ) (D0 : Mat) : Except PolyAbort Mat :=
  if np = 0 then .ok (mset D0 0 0 0)
  else
    match pdv (fun _ => 0) with
    | .error a => .error a
    | .ok pdf => .ok (refMat np pdf (fun i => z.getD i 0) diagf D0)

/-- Polylib::Serial::Derivative(GAUSS)::getValues (source lines 213-246). -/
def DerivativeGauss (maxPoint np : ℕ) (z : List ℚ) (α β : ℚ) (D0 : Mat) :
    Except PolyAbort Mat :=
  derivativeAliased (pdGaussF maxPoint np z α β) np z (diagGauss np z α β) D0

/-- Reference implementation of the GAUSS derivative matrix. -/
def DerivativeGaussRef (maxPoint np : ℕ) (z : List ℚ) (α β : ℚ) (D0 : Mat) :
    Except PolyAbort Mat :=
  derivativeRef (pdGaussF maxPoint np z α β) np z (diagGauss np z α β) D0

/-- Polylib::Serial::Derivative(GAUSS_RADAU_LEFT)::getValues (source lines 248-291). -/
def DerivativeRadauLeft (gammaF : ℚ → ℚ) (maxPoint np : ℕ) (z : List ℚ) (α β : ℚ)
    (D0 : Mat) : Except PolyAbort Mat :=
  derivativeAliased (pdRadauLeftF gammaF maxPoint np z α β) np z (diagRadauLeft np z α β) D0

/-- Reference implementation of the GAUSS_RADAU_LEFT derivative matrix. -/
def DerivativeRadauLeftRef (gammaF : ℚ → ℚ) (maxPoint np : ℕ) (z : List ℚ) (α β : ℚ)
    (D0 : Mat) : Except PolyAbort Mat :=
  derivativeRef (pdRadauLeftF gammaF maxPoint np z α β) np z (diagRadauLeft np z α β) D0

/-- Polylib::Serial::Derivative(GAUSS_RADAU_RIGHT)::getValues (source lines 293-334). -/
def DerivativeRadauRight (gammaF : ℚ → ℚ) (maxPoint np : ℕ) (z : List ℚ) (α β : ℚ)
    (D0 : Mat) : Except PolyAbort Mat :=
  derivativeAliased (pdRadauRightF gammaF maxPoint np z α β) np z (diagRadauRight np z α β) D0

/-- Reference implementation of the GAUSS_RADAU_RIGHT derivative matrix. -/
def DerivativeRadauRightRef (gammaF : ℚ → ℚ) (maxPoint np : ℕ) (z : List ℚ) (α β : ℚ)
    (D0 : Mat) : Except PolyAbort Mat :=
  derivativeRef (pdRadauRightF gammaF maxPoint np z α β) np z (diagRadauRight np z α β) D0

/-- Polylib::Serial::Derivative(GAUSS_LOBATTO)::getValues (source lines 336-388). -/
def DerivativeLobatto (gammaF : ℚ → ℚ) (maxPoint np : ℕ) (z : List ℚ) (α β : ℚ)
    (D0 : Mat) : Except PolyAbort Mat :=
  derivativeAliased (pdLobattoF gammaF maxPoint np z α β) np z (diagLobatto np z α β) D0

/-- Reference implementation of the GAUSS_LOBATTO derivative matrix. -/
def DerivativeLobattoRef (gammaF : ℚ → ℚ) (maxPoint np : ℕ) (z : List ℚ) (α β : ℚ)
    (D0 : Mat) : Except PolyAbort Mat :=
  derivativeRef (pdLobattoF gammaF maxPoint np z α β) np z (diagLobatto np z α β) D0

/-- Deflation search of TriQL (source lines 794-797): smallest m in [l, n-1)
whose subdiagonal test |e(m)| + dd == dd holds (transcribed verbatim; over ℚ
the finite-precision test is an exact equation), else m = n - 1. -/
def findM (d e : List ℚ) (n l : ℕ) : ℕ :=
  match (List.range' l (n - 1 - l)).find? (fun m =>
    decide (|e.getD m 0| + (|d.getD m 0| + |d.getD (m + 1) 0|) =
      |d.getD m 0| + |d.getD (m + 1) 0|)) with
  | some m => m
  | none => n - 1

/-- Chain of Givens rotations of TriQL (source lines 809-828), processing
i = l + cnt - 1 down to l; state (d, e, s, c, p, g). -/
def rotLoop (sqrtF : ℚ → ℚ) (l : ℕ) :
    ℕ → List ℚ × List ℚ × ℚ × ℚ × ℚ × ℚ → List ℚ × List ℚ × ℚ × ℚ × ℚ × ℚ
  | 0, st => st
  | (cnt + 1), (d, e, s, c, p, g) =>
    let i := l + cnt
    let f := s * e.getD i 0
    let b := c * e.getD i 0
    let br :=
      if |g| ≤ |f| then
        let c1 := g / f
        let r := sqrtF (c1 * c1 + 1)
        let s1 := 1 / r
        (s1, c1 * s1, e.set (i + 1) (f * r))
      else
        let s1 := f / g
        let r := sqrtF (s1 * s1 + 1)
        let c1 := 1 / r
        (s1 * c1, c1, e.set (i + 1) (g * r))
    let g1 := d.getD (i + 1) 0 - p
    let r2 := (d.getD i 0 - g1) * br.1 + 2 * br.2.1 * b
    let p1 := br.1 * r2
    rotLoop sqrtF l cnt
      (d.set (i + 1) (g1 + p1), br.2.2, br.1, br.2.1, p1, br.2.1 * r2 - b)

/-- One row of the implicit-shift QL reduction (source lines 793-833): the
do-while loop for row l, with fuel = remaining rotation passes before the
iteration-cap abort (iter++ == MaxPolylibIteration). -/
def qlPassLoop (sqrtF : ℚ → ℚ) (n l : ℕ) :
    ℕ → List ℚ → List ℚ → Except PolyAbort (List ℚ × List ℚ)
  | fuel, d, e =>
    let m := findM d e n l
    if m = l then .ok (d, e)
    else
      match fuel with
      | 0 => .error .tooManyIterations
      | (fi + 1) =>
        let g0 := (d.getD (l + 1) 0 - d.getD l 0) / (2 * e.getD l 0)
        let r0 := sqrtF (g0 * g0 + 1)
        let g1 := d.getD m 0 - d.getD l 0 +
          e.getD l 0 / (g0 + (if g0 < 0 then -|r0| else |r0|))
        let st := rotLoop sqrtF l (m - l) (d, e, 1, 1, 0, g1)
        let d2 := st.1.set l (st.1.getD l 0 - st.2.2.2.2.1)
        let e2 := (st.2.1.set l st.2.2.2.2.2).set m 0
        qlPassLoop sqrtF n l fi d2 e2

/-- Rows l = 0..cnt-1 of the QL reduction, starting at row l0. -/
def qlOuter (sqrtF : ℚ → ℚ) (maxIter n : ℕ) :
    ℕ → ℕ → List ℚ → List ℚ → Except PolyAbort (List ℚ × List ℚ)
  | 0, _, d, e => .ok (d, e)
  | (cnt + 1), l0, d, e =>
    match qlPassLoop sqrtF n l0 maxIter d e with
    | .error a => .error a
    | .ok (d1, e1) => qlOuter sqrtF maxIter n cnt (l0 + 1) d1 e1

/-- QL reduction phase of TriQL (source lines 791-834): after it, d holds the
eigenvalues in arbitrary order. -/
def triQLReduce (sqrtF : ℚ → ℚ) (maxIter : ℕ) (d e : List ℚ) (n : ℕ) :
    Except PolyAbort (List ℚ × List ℚ) :=
  qlOuter sqrtF maxIter n n 0 d e

/-- Minimum scan of the final ordering pass (source lines 838-844): fold over
l = i+1..n-1 keeping the index and value of the smallest entry seen. -/
def selScan (d : List ℚ) (i n : ℕ) : ℕ × ℚ :=
  (List.range' (i + 1) (n - (i + 1))).foldl
    (fun kp l => if d.getD l 0 < kp.2 then (l, d.getD l 0) else kp)
    (i, d.getD i 0)

/-- Exchange step of the ordering pass (source lines 845-846):
d(k) = d(i); d(i) = p. -/
def selSwap (d : List ℚ) (i n : ℕ) : List ℚ :=
  ((d.set (selScan d i n).1 (d.getD i 0)).set i (selScan d i n).2)

/-- Ordering pass outer loop, i = 0..n-2, with fuel = remaining iterations. -/
def selGo (n : ℕ) : ℕ → ℕ → List ℚ → List ℚ
  | _, 0, d => d
  | i, (fuel + 1), d => selGo n (i + 1) fuel (selSwap d i n)

/-- Selection sort that reorders the eigenvalues ascending (source lines 836-847). -/
def selectionPass (d : List ℚ) (n : ℕ) : List ℚ :=
  selGo n 0 (n - 1) d

/-- Polylib::Serial::TriQL (source lines 778-848): QL reduction followed by
the ascending ordering pass on d. -/
def TriQL (sqrtF : ℚ → ℚ) (maxIter : ℕ) (d e : List ℚ) (n : ℕ) :
    Except PolyAbort (List ℚ × List ℚ) :=
  match triQLReduce sqrtF maxIter d e n with
  | .error a => .error a
  | .ok (d1, e1) => .ok (selectionPass d1 n, e1)

/-- Polylib::Serial::JacobiZerosTriDiagonal (source lines 735-775): build the
normalised tridiagonal coefficients a, b (Gamma-function and square-root
values through the oracles), then find the eigenvalues with TriQL.  The
output buffer a is written only for n ≥ 1; the scratch b has size maxPoint. -/
def JacobiZerosTriDiagonal (gammaF pow2F sqrtF : ℚ → ℚ) (maxIter maxPoint : ℕ)
    (a : List ℚ) (n : ℕ) (α β : ℚ) : Except PolyAbort (List ℚ) :=
  if n = 0 then .ok a
  else
    let apb := α + β
    let b1 := (List.replicate maxPoint (0 : ℚ)).set (n - 1)
      (pow2F (apb + 1) * gammaF (α + 1) * gammaF (β + 1) / gammaF (2 + apb))
    let a1 := a.set 0 ((β - α) / (2 + apb))
    let b2 := b1.set 0 (sqrtF (4 * (1 + α) * (1 + β) /
      ((2 + apb + 1) * (2 + apb) * (2 + apb))))
    let a2 := writeSeg 1 (n - 2) (fun j =>
      (β * β - α * α) / ((2 * ((j : ℚ) + 2) + apb - 2) * (2 * ((j : ℚ) + 2) + apb))) a1
    let b3 := writeSeg 1 (n - 2) (fun j =>
      sqrtF (4 * ((j : ℚ) + 2) * ((j : ℚ) + 2 + α) * ((j : ℚ) + 2 + β) * ((j : ℚ) + 2 + apb) /
        (((2 * ((j : ℚ) + 2) + apb) * (2 * ((j : ℚ) + 2) + apb) - 1) *
          (2 * ((j : ℚ) + 2) + apb) * (2 * ((j : ℚ) + 2) + apb)))) b2
    let a3 := if 1 < n then
        a2.set (n - 1) ((β * β - α * α) / ((2 * (n : ℚ) + apb - 2) * (2 * (n : ℚ) + apb)))
      else a2
    match TriQL sqrtF maxIter a3 b3 n with
    | .error ab => .error ab
    | .ok (d, _) => .ok d

/-- Polylib::Serial::JacobiZeros (source lines 674-687): strategy dispatch. -/
def JacobiZeros (deflationEnabled : Bool) (guess : ℕ → ℚ) (tol : ℚ)
    (gammaF pow2F sqrtF : ℚ → ℚ) (maxIter maxPoint : ℕ)
    (z : List ℚ) (n : ℕ) (α β : ℚ) : Except PolyAbort (List ℚ) :=
  if deflationEnabled then JacobiZerosPolyDeflation guess tol maxIter maxPoint z n α β
  else JacobiZerosTriDiagonal gammaF pow2F sqrtF maxIter maxPoint z n α β

theorem length_mapIdxGo (f : ℕ → ℚ → ℚ) : ∀ (i : ℕ) (l : List ℚ),
    (mapIdxGo f i l).length = l.length := by
  intro i l
  induction l generalizing i with
  | nil => rfl
  | cons v t ih => simp [mapIdxGo, ih]

theorem getD_mapIdxGo (f : ℕ → ℚ → ℚ) : ∀ (i : ℕ) (l : List ℚ) (j : ℕ),
    j < l.length → (mapIdxGo f i l).getD j 0 = f (i + j) (l.getD j 0) := by
  intro i l
  induction l generalizing i with
  | nil => intro j h; simp at h
  | cons v t ih =>
    intro j h
    cases j with
    | zero => simp [mapIdxGo]
    | succ j2 =>
      have := ih (i + 1) j2 (by simpa using Nat.lt_of_succ_lt_succ h)
      simpa [mapIdxGo, Nat.add_assoc, Nat.add_comm 1 j2] using this

theorem length_writeSeg (s c : ℕ) (g : ℕ → ℚ) (buf : List ℚ) :
    (writeSeg s c g buf).length = buf.length := by
  simp [writeSeg, length_mapIdxGo]

theorem getD_writeSeg (s c : ℕ) (g : ℕ → ℚ) (buf : List ℚ) (j : ℕ)
    (h : j < buf.length) :
    (writeSeg s c g buf).getD j 0 =
      if s ≤ j ∧ j < s + c then g (j - s) else buf.getD j 0 := by
  simpa [writeSeg] using getD_mapIdxGo _ 0 buf j h

theorem length_writeN (np : ℕ) (g : ℕ → ℚ) (buf : List ℚ) :
    (writeN np g buf).length = buf.length := by
  simp [writeN, length_writeSeg]

theorem getD_writeN (np : ℕ) (g : ℕ → ℚ) (buf : List ℚ) (j : ℕ)
    (h : j < buf.length) :
    (writeN np g buf).getD j 0 = if j < np then g j else buf.getD j 0 := by
  simpa [writeN] using getD_writeSeg 0 np g buf j h

theorem getD_set_q (l : List ℚ) (i j : ℕ) (v : ℚ) :
    (l.set i v).getD j 0 = if i = j ∧ j < l.length then v else l.getD j 0 := by
  induction l generalizing i j with
  | nil => simp
  | cons a t ih =>
    cases i with
    | zero =>
      cases j with
      | zero => simp
      | succ j2 => simp
    | succ i2 =>
      cases j with
      | zero => simp
      | succ j2 => simpa [List.set, Nat.succ_lt_succ_iff] using ih i2 j2

theorem getD_of_length_le (l : List ℚ) (j : ℕ) (h : l.length ≤ j) :
    l.getD j 0 = 0 := by
  simp [List.getD_eq_getElem?_getD, List.getElem?_eq_none h]

/-- Claim C1.  The source intends a Misuse abort when a derivative buffer is
supplied without a value buffer for degree n ≥ 2, and says so in the abort
message, but the guard at source line 601 tests `polyd.data() && !polyd.data()`,
which is identically false: the call returns silently, writing nothing.
Demonstrated at n = 2, np = 1, z = (0), derivative buffer (5), value buffer
absent. -/
theorem claim1_missing_value_buffer_silent_return :
    JacobiPolynomial 2 1 [0] none (some [5]) 2 0 0 = .ok (none, some [5]) := by
  rfl

/-- Claim C2, counterexample.  A call with degree n = 4 exceeding
maxOrder = 2 maxPoint - 1 = 3 but with no value output buffer returns
normally instead of aborting: the guard `if (!polyi.data()) return` at source
line 603 runs before the order check at line 607. -/
theorem claim2_counterexample_no_abort_without_value_buffer :
    JacobiPolynomial 2 1 [0] none none 4 0 0 = .ok (none, none) ∧
      (4 : ℕ) > 2 * 2 - 1 := by
  exact ⟨rfl, by norm_num⟩

theorem jacobiPolynomial_order_abort (maxPoint np : ℕ) (z : List ℚ)
    (buf : List ℚ) (polyd : Option (List ℚ)) (n : ℕ) (α β : ℚ)
    (hnp : 1 ≤ np) (hn2 : 2 ≤ n) (hn : 2 * maxPoint - 1 < n) :
    JacobiPolynomial maxPoint np z (some buf) polyd n α β = .error .orderExceeded := by
  unfold JacobiPolynomial
  rw [if_neg (by omega), if_neg (by omega), if_neg (by omega),
    if_neg (fun h => h.2 h.1), if_neg (by simp), if_pos hn]

/-- Claim C2, amended.  For every call with at least one point, a value
output buffer supplied, and requested degree n exceeding
maxOrder = 2 maxPoint - 1, JacobiPolynomial fails with the OrderExceeded
abort (source lines 605-608). -/
theorem claim2_order_exceeded_abort (maxPoint np : ℕ) (z : List ℚ)
    (buf : List ℚ) (polyd : Option (List ℚ)) (n : ℕ) (α β : ℚ)
    (hmp : 1 ≤ maxPoint) (hnp : 1 ≤ np) (hn : 2 * maxPoint - 1 < n) :
    JacobiPolynomial maxPoint np z (some buf) polyd n α β = .error .orderExceeded :=
  jacobiPolynomial_order_abort maxPoint np z buf polyd n α β hnp (by omega) hn

/-- Witness for claim C2: the amended abort at maxPoint = 2, np = 1, n = 4. -/
theorem claim2_order_exceeded_abort_witness :
    JacobiPolynomial 2 1 [0] (some [7]) none 4 0 0 = .error .orderExceeded :=
  claim2_order_exceeded_abort 2 1 [0] [7] none 4 0 0 (by norm_num) (by norm_num)
    (by norm_num)

theorem descProd_eq_prod (x : ℚ) : ∀ n : ℕ,
    descProd x n = ∏ j ∈ Finset.range n, (x - (j + 1)) := by
  intro n
  induction n with
  | zero => simp [descProd]
  | succ m ih =>
    rw [descProd, List.range_succ, List.foldl_append, ← descProd,
      Finset.prod_range_succ, ih]
    simp

theorem prod_range_sub_nat (m : ℕ) :
    ∏ j ∈ Finset.range m, ((m : ℚ) - j) = (Nat.factorial m : ℚ) := by
  have h1 : ∀ j ∈ Finset.range m, ((m : ℚ) - j) = ((m - j : ℕ) : ℚ) := by
    intro j hj
    have : j ≤ m := Nat.le_of_lt (Finset.mem_range.mp hj)
    push_cast [this]
    ring
  rw [Finset.prod_congr rfl h1, ← Nat.cast_prod]
  congr 1
  have h2 := Finset.prod_range_reflect (fun x => x + 1) m
  have h3 : ∀ j ∈ Finset.range m, m - 1 - j + 1 = m - j := by
    intro j hj
    have : j < m := Finset.mem_range.mp hj
    omega
  rw [Finset.prod_congr rfl h3] at h2
  rw [h2, Finset.prod_range_add_one_eq_factorial]

theorem qtrunc_half_add_nat (k : ℕ) : qtrunc ((k : ℚ) + 1/2) = k := by
  have h0 : (0 : ℚ) ≤ (k : ℚ) + 1/2 := by positivity
  rw [qtrunc, if_pos h0, Int.floor_eq_iff]
  constructor
  · push_cast; linarith
  · push_cast; linarith

theorem qtrunc_nat (m : ℕ) : qtrunc (m : ℚ) = m := by
  rw [qtrunc, if_pos (by positivity)]
  exact_mod_cast Int.floor_natCast m

/-- Claim C4.  GammaFunction returns exactly 1 at 0 and -2 sqrt(pi) at -0.5;
for every half-integer x = k + 0.5 with k a natural number it returns
sqrt(pi) times the descending product (x-1)(x-2)...(x-k); for every positive
integer m it returns the factorial (m-1)!; for every argument that is
neither an integer nor a half-integer it aborts fatally; in particular
GammaFunction 5 = 24 exactly, GammaFunction 0.5 = sqrt(pi) and
GammaFunction (-0.5) = -2 sqrt(pi). -/
theorem claim4_gamma_function_values :
    GammaFunction 0 = .val 1 0 ∧
    GammaFunction (-(1/2)) = .val 0 (-2) ∧
    (∀ k : ℕ, GammaFunction ((k : ℚ) + 1/2) =
      .val 0 (∏ j ∈ Finset.range k, ((k : ℚ) + 1/2 - (j + 1)))) ∧
    (∀ m : ℕ, 1 ≤ m →
      GammaFunction (m : ℚ) = .val (Nat.factorial (m - 1) : ℚ) 0) ∧
    (∀ x : ℚ, (¬ ∃ k : ℤ, x = (k : ℚ)) → (¬ ∃ k : ℤ, x = (k : ℚ) + 1/2) →
      GammaFunction x = .abort) ∧
    GammaFunction 5 = .val 24 0 ∧
    (GammaFunction (1/2)).interp = some (Real.sqrt Real.pi) ∧
    (GammaFunction (-(1/2))).interp = some (-(2 * Real.sqrt Real.pi)) ∧
    (GammaFunction 5).interp = some 24 := by
  have hhalf : ∀ k : ℕ, GammaFunction ((k : ℚ) + 1/2) =
      .val 0 (∏ j ∈ Finset.range k, ((k : ℚ) + 1/2 - (j + 1))) := by
    intro k
    have hne1 : ¬ ((k : ℚ) + 1/2 = -(1/2)) := by
      intro h
      have : (k : ℚ) = -1 := by linarith
      have hk : (0 : ℚ) ≤ (k : ℚ) := by exact_mod_cast Nat.zero_le k
      linarith
    have hne2 : ¬ ((k : ℚ) + 1/2 = 0) := by
      intro h
      have hk : (0 : ℚ) ≤ (k : ℚ) := by exact_mod_cast Nat.zero_le k
      linarith
    rw [GammaFunction, if_neg hne1, if_neg hne2, qtrunc_half_add_nat,
      if_pos (by push_cast; ring), descProd_eq_prod]
    simp
  have hint : ∀ m : ℕ, 1 ≤ m →
      GammaFunction (m : ℚ) = .val (Nat.factorial (m - 1) : ℚ) 0 := by
    intro m hm
    have hne1 : ¬ ((m : ℚ) = -(1/2)) := by
      intro h
      have : (0 : ℚ) ≤ (m : ℚ) := by exact_mod_cast Nat.zero_le m
      linarith
    have hne2 : ¬ ((m : ℚ) = 0) := by exact_mod_cast Nat.pos_iff_ne_zero.mp hm
    have htr := qtrunc_nat m
    rw [GammaFunction, if_neg hne1, if_neg hne2, htr, if_neg (by norm_num),
      if_pos (by push_cast; ring), if_pos (by exact_mod_cast hm)]
    have htn : ((m : ℤ)).toNat = m := Int.toNat_natCast m
    rw [htn, descProd_eq_prod]
    have hprod : ∏ j ∈ Finset.range (m - 1), ((m : ℚ) - (j + 1)) =
        (Nat.factorial (m - 1) : ℚ) := by
      have hcast : ((m - 1 : ℕ) : ℚ) = (m : ℚ) - 1 := by
        push_cast [hm]; ring
      have := prod_range_sub_nat (m - 1)
      rw [hcast] at this
      rw [← this]
      refine Finset.prod_congr rfl ?_
      intro j hj
      ring
    rw [hprod]
  have habort : ∀ x : ℚ, (¬ ∃ k : ℤ, x = (k : ℚ)) →
      (¬ ∃ k : ℤ, x = (k : ℚ) + 1/2) → GammaFunction x = .abort := by
    intro x hni hnh
    have hne1 : ¬ (x = -(1/2)) := by
      intro h
      exact hnh ⟨-1, by rw [h]; norm_num⟩
    have hne2 : ¬ (x = 0) := by
      intro h
      exact hni ⟨0, by rw [h]; norm_num⟩
    have hne3 : ¬ (x - qtrunc x = 1/2) := by
      intro h
      exact hnh ⟨qtrunc x, by linarith⟩
    have hne4 : ¬ (x - qtrunc x = 0) := by
      intro h
      exact hni ⟨qtrunc x, by linarith⟩
    rw [GammaFunction, if_neg hne1, if_neg hne2, if_neg hne3, if_neg hne4]
  have g0 : GammaFunction 0 = .val 1 0 := by
    rw [GammaFunction, if_neg (by norm_num), if_pos rfl]
  have gneg : GammaFunction (-(1/2)) = .val 0 (-2) := by
    rw [GammaFunction, if_pos rfl]
  have g5 : GammaFunction 5 = .val 24 0 := by
    have h := hint 5 (by norm_num)
    norm_num [Nat.factorial] at h
    exact h
  have ghalf : GammaFunction (1/2) = .val 0 1 := by
    have h := hhalf 0
    norm_num at h
    exact h
  refine ⟨g0, gneg, hhalf, hint, habort, g5, ?_, ?_, ?_⟩
  · rw [ghalf, GammaValue.interp]
    norm_num
  · rw [gneg, GammaValue.interp]
    push_cast
    ring_nf
  · rw [g5, GammaValue.interp]
    norm_num

/-- Witness for claim C4: the universally quantified and conditional parts
evaluated at k = 2 (x = 2.5), m = 5, and the non-half-integer x = 1/3. -/
theorem claim4_gamma_function_values_witness :
    GammaFunction ((2 : ℕ) + 1/2 : ℚ) = .val 0 (3/4) ∧
    GammaFunction ((5 : ℕ) : ℚ) = .val 24 0 ∧
    GammaFunction (1/3) = .abort := by
  refine ⟨?_, ?_, ?_⟩
  · have h := claim4_gamma_function_values.2.2.1 2
    rw [h]
    norm_num [Finset.prod_range_succ]
  · have h := claim4_gamma_function_values.2.2.2.1 5 (by norm_num)
    rw [h]
    norm_num [Nat.factorial]
  · refine claim4_gamma_function_values.2.2.2.2.1 (1/3) ?_ ?_
    · rintro ⟨k, hk⟩
      have h3 : ((3 * k : ℤ) : ℚ) = ((1 : ℤ) : ℚ) := by push_cast; linarith
      have := Int.cast_injective (α := ℚ) h3
      omega
    · rintro ⟨k, hk⟩
      have h6 : ((6 * k : ℤ) : ℚ) = ((-1 : ℤ) : ℚ) := by push_cast; linarith
      have := Int.cast_injective (α := ℚ) h6
      omega

theorem jacobiPolynomial_value_output (maxPoint np : ℕ) (z buf : List ℚ)
    (n : ℕ) (α β : ℚ) (hord : ¬ (2 ≤ n ∧ 2 * maxPoint - 1 < n)) :
    ∃ out, JacobiPolynomial maxPoint np z (some buf) none n α β = .ok (some out, none) ∧
      out.length = buf.length ∧
      ∀ i, i < np → i < buf.length → out.getD i 0 = jacP α β (z.getD i 0) n := by
  rcases Nat.eq_zero_or_pos np with hnp | hnp
  · exact ⟨buf, by simp [JacobiPolynomial, hnp], rfl, fun i hi => by omega⟩
  · match n with
    | 0 =>
      refine ⟨writeN np (fun _ => 1) buf, ?_, length_writeN np _ buf, ?_⟩
      · simp [JacobiPolynomial, Nat.pos_iff_ne_zero.mp hnp]
      · intro i hi hib
        rw [getD_writeN np _ buf i hib, if_pos hi, jacP]
    | 1 =>
      refine ⟨writeN np (fun i => (1/2) * (α - β + (α + β + 2) * z.getD i 0)) buf,
        ?_, length_writeN np _ buf, ?_⟩
      · simp [JacobiPolynomial, Nat.pos_iff_ne_zero.mp hnp]
      · intro i hi hib
        rw [getD_writeN np _ buf i hib, if_pos hi, jacP]
    | (m + 2) =>
      refine ⟨writeN np (fun i => jacP α β (z.getD i 0) (m + 2)) buf,
        ?_, length_writeN np _ buf, ?_⟩
      · rw [JacobiPolynomial, if_neg (by omega), if_neg (by omega), if_neg (by omega),
          if_neg (fun h => h.2 h.1), if_neg (by simp), if_neg (by omega)]
        simp
      · intro i hi hib
        rw [getD_writeN np _ buf i hib, if_pos hi]

/-- Claim C6, counterexample.  The claim quantifies over every degree n, but
for n - 1 above maxOrder = 2 maxPoint - 1 the delegated JacobiPolynomial call
aborts with OrderExceeded and nothing is written: here maxPoint = 2,
maxOrder = 3, degree n = 5 (delegated degree 4). -/
theorem claim6_counterexample_degree_above_bound_aborts :
    JacobiPolynomialDerivative 2 1 [0] [7] 5 0 0 = .error .orderExceeded := by
  rfl

/-- Claim C6, amended with the order bound n - 1 ≤ maxOrder (that is,
n ≤ 2 maxPoint) under which the delegated call cannot abort: at every point
z(i), i < np, JacobiPolynomialDerivative writes 0 for degree 0 and otherwise
0.5 (alpha + beta + n + 1) times the value that JacobiPolynomial computes for
degree n - 1 with parameters alpha + 1, beta + 1; no independent recurrence
is used. -/
theorem claim6_derivative_delegation (maxPoint np : ℕ) (z buf : List ℚ)
    (n : ℕ) (α β : ℚ) (i : ℕ) (hn : n ≤ 2 * maxPoint) (hi : i < np)
    (hib : i < buf.length) :
    ∃ out, JacobiPolynomialDerivative maxPoint np z buf n α β = .ok out ∧
      out.length = buf.length ∧
      out.getD i 0 = if n = 0 then 0
        else (1/2) * (α + β + n + 1) * jacP (α + 1) (β + 1) (z.getD i 0) (n - 1) := by
  match n with
  | 0 =>
    refine ⟨writeN np (fun _ => 0) buf, by simp [JacobiPolynomialDerivative],
      length_writeN np _ buf, ?_⟩
    rw [getD_writeN np _ buf i hib, if_pos hi, if_pos rfl]
  | (m + 1) =>
    obtain ⟨w1, hw1, hlen, hval⟩ := jacobiPolynomial_value_output maxPoint np z buf
      m (α + 1) (β + 1) (by omega)
    refine ⟨writeN np (fun i => w1.getD i 0 * ((1/2) * (α + β + (m + 1 : ℕ) + 1))) w1,
      ?_, ?_, ?_⟩
    · rw [JacobiPolynomialDerivative, if_neg (by omega)]
      simp only [Nat.add_sub_cancel, hw1, Option.getD_some]
    · rw [length_writeN, hlen]
    · rw [getD_writeN np _ w1 i (hlen ▸ hib), if_pos hi,
        if_neg (Nat.succ_ne_zero m), hval i hi hib]
      push_cast
      ring

/-- Witness for claim C6 at maxPoint = 2, np = 1, z = (0), buf = (7),
degree 2, alpha = beta = 0, point index 0. -/
theorem claim6_derivative_delegation_witness :
    ∃ out, JacobiPolynomialDerivative 2 1 [0] [7] 2 0 0 = .ok out ∧
      out.getD 0 0 = (1/2) * (0 + 0 + ((2 : ℕ) : ℚ) + 1) * jacP 1 1 0 1 := by
  obtain ⟨out, h1, _, h3⟩ :=
    claim6_derivative_delegation 2 1 [0] [7] 2 0 0 0 (by norm_num) (by norm_num)
      (by norm_num)
  refine ⟨out, h1, ?_⟩
  rw [h3]
  norm_num

/-- Claim C5.  For np = 1 the GaussRadauLeft, GaussRadauRight and
GaussLobatto cubature routines do not fail and return the single-point rule
z(0) = 0, w(0) = 2 (source lines 114-117, 149-152, 182-185). -/
theorem claim5_np_one_single_point_rule (gammaF pow2F : ℚ → ℚ)
    (jz : ℕ → ℚ → ℚ → List ℚ) (maxPoint : ℕ) (z w : List ℚ) (α β : ℚ)
    (hz : 1 ≤ z.length) (hw : 1 ≤ w.length) :
    (CubatureGaussRadauLeft gammaF pow2F jz maxPoint 1 z w α β =
        .ok (z.set 0 0, w.set 0 2) ∧
      CubatureGaussRadauRight gammaF pow2F jz maxPoint 1 z w α β =
        .ok (z.set 0 0, w.set 0 2) ∧
      CubatureGaussLobatto gammaF pow2F jz maxPoint 1 z w α β =
        .ok (z.set 0 0, w.set 0 2)) ∧
    (z.set 0 0).getD 0 0 = 0 ∧ (w.set 0 2).getD 0 0 = 2 := by
  refine ⟨⟨?_, ?_, ?_⟩, ?_, ?_⟩
  · rw [CubatureGaussRadauLeft, if_pos rfl]
  · rw [CubatureGaussRadauRight, if_pos rfl]
  · rw [CubatureGaussLobatto, if_pos rfl]
  · rw [getD_set_q, if_pos ⟨rfl, hz⟩]
  · rw [getD_set_q, if_pos ⟨rfl, hw⟩]

/-- Witness for claim C5 with trivial oracles and one-entry buffers. -/
theorem claim5_np_one_single_point_rule_witness :
    CubatureGaussLobatto (fun _ => 1) (fun _ => 1) (fun _ _ _ => []) 2 1 [5] [6] 0 0 =
      .ok ([0], [2]) := by
  have h := claim5_np_one_single_point_rule (fun _ => 1) (fun _ => 1)
    (fun _ _ _ => []) 2 [5] [6] 0 0 (by norm_num) (by norm_num)
  exact h.1.2.2

/-- Claim C7.  For np ≥ 2 the GaussLobatto cubature fixes z(0) = -1 and
z(np-1) = 1, fills the np-2 interior nodes with the zeros returned by
JacobiZeros(np-2, alpha+1, beta+1), and multiplies the common weight value
fac / w(i)^2 by (beta+1) at the left endpoint and (alpha+1) at the right
endpoint (source lines 186-206). -/
theorem claim7_lobatto_structure (gammaF pow2F : ℚ → ℚ)
    (jz : ℕ → ℚ → ℚ → List ℚ) (maxPoint np : ℕ) (z w : List ℚ) (α β : ℚ)
    (zOut wOut : List ℚ) (hnp : 2 ≤ np) (hzl : z.length = np) (hwl : w.length = np)
    (hok : CubatureGaussLobatto gammaF pow2F jz maxPoint np z w α β = .ok (zOut, wOut)) :
    zOut.getD 0 0 = -1 ∧ zOut.getD (np - 1) 0 = 1 ∧
    (∀ i, 1 ≤ i → i ≤ np - 2 →
      zOut.getD i 0 = (jz (np - 2) (α + 1) (β + 1)).getD (i - 1) 0) ∧
    (∀ i, i < np → wOut.getD i 0 =
      (if i = 0 then
        pow2F (α + β + 1) * gammaF (α + np) * gammaF (β + np) /
            ((np - 1 : ℚ) * gammaF np * gammaF (α + β + np + 1)) /
          (jacP α β (zOut.getD i 0) (np - 1) * jacP α β (zOut.getD i 0) (np - 1)) * (β + 1)
      else if i = np - 1 then
        pow2F (α + β + 1) * gammaF (α + np) * gammaF (β + np) /
            ((np - 1 : ℚ) * gammaF np * gammaF (α + β + np + 1)) /
          (jacP α β (zOut.getD i 0) (np - 1) * jacP α β (zOut.getD i 0) (np - 1)) * (α + 1)
      else
        pow2F (α + β + 1) * gammaF (α + np) * gammaF (β + np) /
            ((np - 1 : ℚ) * gammaF np * gammaF (α + β + np + 1)) /
          (jacP α β (zOut.getD i 0) (np - 1) * jacP α β (zOut.getD i 0) (np - 1)))) := by
  rw [CubatureGaussLobatto, if_neg (by omega)] at hok
  dsimp only [] at hok
  by_cases hord : 2 ≤ np - 1 ∧ 2 * maxPoint - 1 < np - 1
  · rw [jacobiPolynomial_order_abort maxPoint np _ w none (np - 1) α β
      (by omega) hord.1 hord.2] at hok
    exact absurd hok (by simp)
  · obtain ⟨w1, hw1, hlen, hval⟩ := jacobiPolynomial_value_output maxPoint np
      (writeSeg 1 (np - 2) (fun j => (jz (np - 2) (α + 1) (β + 1)).getD j 0)
        ((z.set 0 (-1)).set (np - 1) 1)) w (np - 1) α β hord
    rw [hw1] at hok
    simp only [Except.ok.injEq, Prod.mk.injEq, Option.getD_some] at hok
    obtain ⟨hzo, hwo⟩ := hok
    have hbl : ((z.set 0 (-1)).set (np - 1) 1).length = np := by simp [hzl]
    have hz2l : zOut.length = np := by
      rw [← hzo, length_writeSeg, hbl]
    have hw1l : w1.length = np := by rw [hlen, hwl]
    have hz2get : ∀ i, i < np → zOut.getD i 0 =
        if 1 ≤ i ∧ i < 1 + (np - 2) then (jz (np - 2) (α + 1) (β + 1)).getD (i - 1) 0
        else ((z.set 0 (-1)).set (np - 1) 1).getD i 0 := by
      intro i hi
      rw [← hzo, getD_writeSeg _ _ _ _ i (by rw [hbl]; exact hi)]
    have hzout0 : zOut.getD 0 0 = -1 := by
      rw [hz2get 0 (by omega), if_neg (by omega), getD_set_q, if_neg (by omega),
        getD_set_q, if_pos ⟨rfl, by simp [hzl]; omega⟩]
    have hzoutl : zOut.getD (np - 1) 0 = 1 := by
      rw [hz2get (np - 1) (by omega), if_neg (by omega), getD_set_q,
        if_pos ⟨rfl, by rw [List.length_set, hzl]; omega⟩]
    refine ⟨hzout0, hzoutl, ?_, ?_⟩
    · intro i h1 h2
      rw [hz2get i (by omega), if_pos ⟨h1, by omega⟩]
    · intro i hi
      have hw1get : w1.getD i 0 = jacP α β (zOut.getD i 0) (np - 1) := by
        rw [← hzo]
        exact hval i hi (by rw [hwl]; exact hi)
      have hw2l : (writeN np (fun i =>
          pow2F (α + β + 1) * gammaF (α + np) * gammaF (β + np) /
            ((np - 1 : ℚ) * gammaF np * gammaF (α + β + np + 1)) /
          (w1.getD i 0 * w1.getD i 0)) w1).length = np := by
        rw [length_writeN, hw1l]
      set fac := pow2F (α + β + 1) * gammaF (α + np) * gammaF (β + np) /
        ((np - 1 : ℚ) * gammaF np * gammaF (α + β + np + 1)) with hfac
      set w2 := writeN np (fun i => fac / (w1.getD i 0 * w1.getD i 0)) w1 with hw2
      have hw2get : ∀ j, j < np → w2.getD j 0 = fac / (w1.getD j 0 * w1.getD j 0) := by
        intro j hj
        rw [hw2, getD_writeN np _ w1 j (by rw [hw1l]; exact hj), if_pos hj]
      set w3 := w2.set 0 (w2.getD 0 0 * (β + 1)) with hw3
      have hw3l : w3.length = np := by rw [hw3, List.length_set]; exact hw2l
      rcases Nat.eq_zero_or_pos i with hi0 | hipos
      · subst hi0
        rw [← hwo, hw1get.symm.trans hw1get]
        rw [getD_set_q, if_neg (by omega), getD_set_q,
          if_pos ⟨rfl, by rw [hw2l]; omega⟩, if_pos rfl, hw2get 0 (by omega), hw1get]
      · by_cases hie : i = np - 1
        · subst hie
          rw [← hwo, getD_set_q, if_pos ⟨rfl, by rw [hw3l]; omega⟩,
            getD_set_q, if_neg (by omega), hw2get (np - 1) (by omega),
            if_neg (by omega), if_pos rfl, hw1get]
        · rw [← hwo, getD_set_q, if_neg (by intro h; exact hie h.1.symm),
            getD_set_q, if_neg (by omega), hw2get i hi,
            if_neg (by omega), if_neg hie, hw1get]

/-- Witness for claim C7 at np = 2 with trivial oracles: nodes (-1, 1). -/
theorem claim7_lobatto_structure_witness :
    ([(-1 : ℚ), 1].getD 0 0 = -1) ∧ ([(-1 : ℚ), 1].getD (2 - 1) 0 = 1) := by
  have hok : CubatureGaussLobatto (fun _ => 1) (fun _ => 1) (fun _ _ _ => []) 2 2
      ([9, 9] : List ℚ) ([7, 7] : List ℚ) 0 0 = .ok ([-1, 1], [1, 1]) := by
    norm_num [CubatureGaussLobatto, JacobiPolynomial, writeSeg, writeN, mapIdxGo,
      List.set, List.getD]
  have h := claim7_lobatto_structure (fun _ => 1) (fun _ => 1) (fun _ _ _ => [])
    2 2 [9, 9] [7, 7] 0 0 [-1, 1] [1, 1] (by norm_num) (by norm_num) (by norm_num) hok
  exact ⟨h.1, h.2.1⟩

theorem newtonLoop_spec (tol : ℚ) (n : ℕ) (α β : ℚ) (zs : List ℚ) :
    ∀ (fuel : ℕ) (r : ℚ),
      (newtonLoop tol n α β zs fuel r).2.1 ≤ fuel ∧
      ((newtonLoop tol n α β zs fuel r).2.2.1 = false →
        (newtonLoop tol n α β zs fuel r).2.1 = fuel) ∧
      ((newtonLoop tol n α β zs fuel r).2.2.1 = true →
        |(newtonLoop tol n α β zs fuel r).2.2.2| < tol) := by
  intro fuel
  induction fuel with
  | zero => intro r; refine ⟨le_refl 0, fun _ => rfl, fun h => by simp [newtonLoop] at h⟩
  | succ f ih =>
    intro r
    rw [newtonLoop]
    by_cases hc : |newtonStep n α β zs r| < tol
    · rw [if_pos hc]
      exact ⟨Nat.succ_le_succ (Nat.zero_le f), fun h => by simp at h,
        fun _ => hc⟩
    · rw [if_neg hc]
      obtain ⟨h1, h2, h3⟩ := ih (r + newtonStep n α β zs r)
      exact ⟨Nat.succ_le_succ h1, fun h => congrArg Nat.succ (h2 h), h3⟩

theorem deflRootsAux_length (guess : ℕ → ℚ) (tol : ℚ) (fuel n : ℕ) (α β : ℚ) :
    ∀ k, (deflRootsAux guess tol fuel n α β k).length = k := by
  intro k
  induction k with
  | zero => rfl
  | succ m ih => simp [deflRootsAux, ih]

theorem deflRootsAux_prefix (guess : ℕ → ℚ) (tol : ℚ) (fuel n : ℕ) (α β : ℚ)
    (k : ℕ) : ∀ m, k < m →
      (deflRootsAux guess tol fuel n α β m).getD k 0 =
        (deflRootsAux guess tol fuel n α β (k + 1)).getD k 0 := by
  intro m
  induction m with
  | zero => omega
  | succ m2 ih =>
    intro hk
    rcases Nat.lt_or_ge k m2 with h | h
    · rw [← ih h, deflRootsAux]
      have hl : k < (deflRootsAux guess tol fuel n α β m2).length := by
        rw [deflRootsAux_length]; exact h
      rw [List.getD_eq_getElem?_getD, List.getElem?_append, if_pos hl,
        ← List.getD_eq_getElem?_getD]
    · have : m2 = k := by omega
      subst this
      rfl

/-- Claim C3, amended.  For a degree inside the order bound and every root
index k < n, the deflated-Newton iteration performs at most
maxIteration - 1 update steps (the loop counter runs from 1 to
maxIteration - 1); it stops early exactly when an update satisfied
|delr| < tolerance, and otherwise runs all maxIteration - 1 steps; in either
case no failure is signalled and the last iterate is silently stored into
z(k). -/
theorem claim3_newton_cap_and_silent_store (guess : ℕ → ℚ) (tol : ℚ)
    (maxIter maxPoint : ℕ) (z : List ℚ) (n : ℕ) (α β : ℚ) (k : ℕ)
    (hord : ¬ (2 ≤ n ∧ 2 * maxPoint - 1 < n)) (hn : 1 ≤ n) (hk : k < n)
    (hkz : k < z.length) :
    ∃ zOut, JacobiZerosPolyDeflation guess tol maxIter maxPoint z n α β = .ok zOut ∧
      zOut.getD k 0 =
        (newtonLoop tol n α β (deflRootsAux guess tol (maxIter - 1) n α β k)
          (maxIter - 1)
          (if k = 0 then guess 0 else
            (1/2) * (guess k +
              (deflRootsAux guess tol (maxIter - 1) n α β k).getD (k - 1) 0))).1 ∧
      (newtonLoop tol n α β (deflRootsAux guess tol (maxIter - 1) n α β k)
          (maxIter - 1)
          (if k = 0 then guess 0 else
            (1/2) * (guess k +
              (deflRootsAux guess tol (maxIter - 1) n α β k).getD (k - 1) 0))).2.1
        ≤ maxIter - 1 ∧
      ((newtonLoop tol n α β (deflRootsAux guess tol (maxIter - 1) n α β k)
          (maxIter - 1)
          (if k = 0 then guess 0 else
            (1/2) * (guess k +
              (deflRootsAux guess tol (maxIter - 1) n α β k).getD (k - 1) 0))).2.2.1
          = false →
        (newtonLoop tol n α β (deflRootsAux guess tol (maxIter - 1) n α β k)
          (maxIter - 1)
          (if k = 0 then guess 0 else
            (1/2) * (guess k +
              (deflRootsAux guess tol (maxIter - 1) n α β k).getD (k - 1) 0))).2.1
          = maxIter - 1) ∧
      ((newtonLoop tol n α β (deflRootsAux guess tol (maxIter - 1) n α β k)
          (maxIter - 1)
          (if k = 0 then guess 0 else
            (1/2) * (guess k +
              (deflRootsAux guess tol (maxIter - 1) n α β k).getD (k - 1) 0))).2.2.1
          = true →
        |(newtonLoop tol n α β (deflRootsAux guess tol (maxIter - 1) n α β k)
          (maxIter - 1)
          (if k = 0 then guess 0 else
            (1/2) * (guess k +
              (deflRootsAux guess tol (maxIter - 1) n α β k).getD (k - 1) 0))).2.2.2|
          < tol) := by
  obtain ⟨h1, h2, h3⟩ := newtonLoop_spec tol n α β
    (deflRootsAux guess tol (maxIter - 1) n α β k) (maxIter - 1)
    (if k = 0 then guess 0 else
      (1/2) * (guess k + (deflRootsAux guess tol (maxIter - 1) n α β k).getD (k - 1) 0))
  refine ⟨writeN n (fun j =>
      (deflRootsAux guess tol (maxIter - 1) n α β n).getD j 0) z, ?_, ?_, h1, h2, h3⟩
  · rw [JacobiZerosPolyDeflation, if_neg (by omega), if_neg hord]
  · rw [getD_writeN n _ z k hkz, if_pos hk]
    have hpre := deflRootsAux_prefix guess tol (maxIter - 1) n α β k n hk
    rw [hpre, deflRootsAux]
    have hl : (deflRootsAux guess tol (maxIter - 1) n α β k).length = k :=
      deflRootsAux_length guess tol (maxIter - 1) n α β k
    rw [List.getD_eq_getElem?_getD, List.getElem?_append_right (by omega)]
    simp [hl]

/-- Witness for claim C3 at n = 1, alpha = beta = 0, tolerance 1, k = 0,
maxIteration = 3, guess 0: the linear case converges in one step. -/
theorem claim3_newton_cap_and_silent_store_witness :
    ∃ zOut, JacobiZerosPolyDeflation (fun _ => 0) 1 3 2 [9] 1 0 0 = .ok zOut ∧
      zOut.getD 0 0 = (newtonLoop 1 1 0 0 [] 2 0).1 := by
  obtain ⟨zOut, hok, hstore, _⟩ :=
    claim3_newton_cap_and_silent_store (fun _ => 0) 1 3 2 [9] 1 0 0 0
      (by omega) (by omega) (by omega) (by norm_num)
  exact ⟨zOut, hok, by simpa [deflRootsAux] using hstore⟩

/-- Claim C3, counterexample to the step count as stated.  With
maxIteration = 3 (fuel = maxIteration - 1 = 2), degree n = 2,
alpha = beta = 0, tolerance 10^-12 and starting iterate 1/2 (no accepted
roots yet), the Newton loop executes exactly 2 update steps, stops without
the tolerance test ever succeeding, and 2 is not maxIteration = 3: the loop
`for (j = 1; j < MaxPolylibIteration; ++j)` performs at most
maxIteration - 1 steps, not maxIteration. -/
theorem claim3_counterexample_stops_before_maxIteration :
    (newtonLoop (1/1000000000000) 2 0 0 [] 2 (1/2)).2.2.1 = false ∧
    (newtonLoop (1/1000000000000) 2 0 0 [] 2 (1/2)).2.1 = 2 ∧ (2 : ℕ) ≠ 3 := by
  have h1 : ¬ (|(3 : ℚ)/35| < 1/1000000000000) := by
    rw [abs_of_pos (by norm_num)]
    norm_num
  have h2 : ¬ (|(16111095 : ℚ)/1949947003| < 1/1000000000000) := by
    rw [abs_of_pos (by norm_num)]
    norm_num
  norm_num [newtonLoop, newtonStep, jacPolyPair, jacP, jacDTop, a1v, a2v, a3v, a4v,
    h1, h2]

theorem selScan_fold (d : List ℚ) : ∀ (cnt start : ℕ) (kp : ℕ × ℚ),
    kp.2 = d.getD kp.1 0 →
    (((List.range' start cnt).foldl
        (fun kp l => if d.getD l 0 < kp.2 then (l, d.getD l 0) else kp) kp = kp ∨
      (start ≤ ((List.range' start cnt).foldl
        (fun kp l => if d.getD l 0 < kp.2 then (l, d.getD l 0) else kp) kp).1 ∧
       ((List.range' start cnt).foldl
        (fun kp l => if d.getD l 0 < kp.2 then (l, d.getD l 0) else kp) kp).1 <
          start + cnt)) ∧
     ((List.range' start cnt).foldl
        (fun kp l => if d.getD l 0 < kp.2 then (l, d.getD l 0) else kp) kp).2 =
       d.getD (((List.range' start cnt).foldl
        (fun kp l => if d.getD l 0 < kp.2 then (l, d.getD l 0) else kp) kp).1) 0 ∧
     ((List.range' start cnt).foldl
        (fun kp l => if d.getD l 0 < kp.2 then (l, d.getD l 0) else kp) kp).2 ≤ kp.2 ∧
     (∀ l, start ≤ l → l < start + cnt →
       ((List.range' start cnt).foldl
        (fun kp l => if d.getD l 0 < kp.2 then (l, d.getD l 0) else kp) kp).2 ≤
         d.getD l 0)) := by
  intro cnt
  induction cnt with
  | zero =>
    intro start kp hkp
    exact ⟨Or.inl rfl, hkp, le_refl _, fun l h1 h2 => by omega⟩
  | succ c ih =>
    intro start kp hkp
    rw [List.range'_succ, List.foldl_cons]
    by_cases hlt : d.getD start 0 < kp.2
    · rw [if_pos hlt]
      obtain ⟨hpos, hval, hle, hall⟩ := ih (start + 1) (start, d.getD start 0) rfl
      refine ⟨?_, hval, hle.trans hlt.le, ?_⟩
      · rcases hpos with h | h
        · exact Or.inr (by rw [h]; omega)
        · exact Or.inr ⟨by omega, by omega⟩
      · intro l h1 h2
        rcases Nat.eq_or_lt_of_le h1 with h | h
        · rw [← h]; exact hle
        · exact hall l h (by omega)
    · rw [if_neg hlt]
      obtain ⟨hpos, hval, hle, hall⟩ := ih (start + 1) kp hkp
      refine ⟨?_, hval, hle, ?_⟩
      · rcases hpos with h | h
        · exact Or.inl h
        · exact Or.inr ⟨by omega, by omega⟩
      · intro l h1 h2
        rcases Nat.eq_or_lt_of_le h1 with h | h
        · rw [← h]; exact hle.trans (not_lt.mp hlt)
        · exact hall l h (by omega)

theorem selScan_spec (d : List ℚ) (i n : ℕ) (hin : i < n) :
    i ≤ (selScan d i n).1 ∧ (selScan d i n).1 < n ∧
    (selScan d i n).2 = d.getD (selScan d i n).1 0 ∧
    ∀ l, i ≤ l → l < n → (selScan d i n).2 ≤ d.getD l 0 := by
  obtain ⟨hpos, hval, hle, hall⟩ :=
    selScan_fold d (n - (i + 1)) (i + 1) (i, d.getD i 0) rfl
  have hcnt : i + 1 + (n - (i + 1)) = n := by omega
  rw [hcnt] at hpos hall
  refine ⟨?_, ?_, hval, ?_⟩
  · rcases hpos with h | h
    · rw [selScan, h]
    · rw [selScan]; omega
  · rcases hpos with h | h
    · rw [selScan, h]; exact hin
    · rw [selScan]; omega
  · intro l h1 h2
    rcases Nat.eq_or_lt_of_le h1 with h | h
    · rw [← h]; exact hle
    · exact hall l h h2

theorem cons_set_perm : ∀ (t : List ℚ) (j : ℕ) (a : ℚ), j < t.length →
    List.Perm (t.getD j 0 :: t.set j a) (a :: t) := by
  intro t
  induction t with
  | nil => intro j a h; simp at h
  | cons b s ih =>
    intro j a h
    cases j with
    | zero => exact List.Perm.swap a b s
    | succ j2 =>
      have h2 : j2 < s.length := by simpa using Nat.lt_of_succ_lt_succ h
      have e1 : (b :: s).getD (j2 + 1) 0 :: (b :: s).set (j2 + 1) a
          = s.getD j2 0 :: b :: s.set j2 a := by simp [List.set]
      rw [e1]
      exact ((List.Perm.swap b _ _).trans
        (List.Perm.cons b (ih j2 a h2))).trans (List.Perm.swap a b s)

theorem set_set_perm : ∀ (d : List ℚ) (i k : ℕ), i ≤ k → k < d.length →
    List.Perm ((d.set k (d.getD i 0)).set i (d.getD k 0)) d := by
  intro d
  induction d with
  | nil => intro i k _ h; simp at h
  | cons a t ih =>
    intro i k hik hk
    cases i with
    | zero =>
      cases k with
      | zero => simp
      | succ k2 =>
        have h2 : k2 < t.length := by simpa using Nat.lt_of_succ_lt_succ hk
        have : ((a :: t).set (k2 + 1) ((a :: t).getD 0 0)).set 0
            ((a :: t).getD (k2 + 1) 0) = t.getD k2 0 :: t.set k2 a := by
          simp [List.set]
        rw [this]
        exact cons_set_perm t k2 a h2
    | succ i2 =>
      cases k with
      | zero => omega
      | succ k2 =>
        have h2 : k2 < t.length := by simpa using Nat.lt_of_succ_lt_succ hk
        have : ((a :: t).set (k2 + 1) ((a :: t).getD (i2 + 1) 0)).set (i2 + 1)
            ((a :: t).getD (k2 + 1) 0) =
            a :: ((t.set k2 (t.getD i2 0)).set i2 (t.getD k2 0)) := by
          simp [List.set]
        rw [this]
        exact List.Perm.cons a (ih i2 k2 (by omega) h2)

theorem selSwap_perm (d : List ℚ) (i n : ℕ) (hin : i < n) (hn : n = d.length) :
    List.Perm (selSwap d i n) d := by
  obtain ⟨h1, h2, h3, _⟩ := selScan_spec d i n hin
  rw [selSwap, h3]
  exact set_set_perm d i (selScan d i n).1 h1 (by omega)

theorem selSwap_length (d : List ℚ) (i n : ℕ) :
    (selSwap d i n).length = d.length := by
  simp [selSwap]

theorem selSwap_getD (d : List ℚ) (i n j : ℕ) (hn : n = d.length) (hj : j < n) :
    (selSwap d i n).getD j 0 =
      if j = i then (selScan d i n).2
      else if j = (selScan d i n).1 then d.getD i 0
      else d.getD j 0 := by
  rw [selSwap, getD_set_q, getD_set_q]
  by_cases hji : j = i
  · rw [if_pos ⟨hji.symm, by simp; omega⟩, if_pos hji]
  · rw [if_neg (fun h => hji h.1.symm), if_neg hji]
    by_cases hjk : j = (selScan d i n).1
    · rw [if_pos ⟨hjk.symm, by omega⟩, if_pos hjk]
    · rw [if_neg (fun h => hjk h.1.symm), if_neg hjk]

theorem selGo_spec (n : ℕ) : ∀ (fuel i : ℕ) (d : List ℚ),
    d.length = n → i + fuel + 1 = n →
    (∀ r s, r < s → s < i → d.getD r 0 ≤ d.getD s 0) →
    (∀ r l, r < i → i ≤ l → l < n → d.getD r 0 ≤ d.getD l 0) →
    List.Perm (selGo n i fuel d) d ∧ (selGo n i fuel d).length = n ∧
    (∀ r s, r < s → s < n → (selGo n i fuel d).getD r 0 ≤ (selGo n i fuel d).getD s 0) := by
  intro fuel
  induction fuel with
  | zero =>
    intro i d hlen hi hpre hbound
    refine ⟨List.Perm.refl d, hlen, ?_⟩
    intro r s hrs hs
    rcases Nat.lt_or_ge s i with h | h
    · exact hpre r s hrs h
    · exact hbound r s (by omega) h hs
  | succ f ih =>
    intro i d hlen hi hpre hbound
    have hin : i < n := by omega
    obtain ⟨hk1, hk2, hk3, hk4⟩ := selScan_spec d i n hin
    have hswl : (selSwap d i n).length = n := by rw [selSwap_length, hlen]
    have hget := fun j hj => selSwap_getD d i n j hlen.symm hj
    have hdi : (selSwap d i n).getD i 0 = (selScan d i n).2 := by
      rw [hget i hin, if_pos rfl]
    have hdr : ∀ r, r < i → (selSwap d i n).getD r 0 = d.getD r 0 := by
      intro r hr
      rw [hget r (by omega), if_neg (by omega), if_neg (by omega)]
    have hdl : ∀ l, i + 1 ≤ l → l < n →
        (selSwap d i n).getD l 0 = d.getD l 0 ∨
        (selSwap d i n).getD l 0 = d.getD i 0 := by
      intro l h1 h2
      rw [hget l h2, if_neg (by omega)]
      by_cases hlk : l = (selScan d i n).1
      · rw [if_pos hlk]; exact Or.inr rfl
      · rw [if_neg hlk]; exact Or.inl rfl
    have hminle : ∀ l, i ≤ l → l < n →
        (selScan d i n).2 ≤ (selSwap d i n).getD l 0 := by
      intro l h1 h2
      rcases Nat.eq_or_lt_of_le h1 with h | h
      · rw [← h, hdi]
      · rcases hdl l h h2 with he | he
        · rw [he]; exact hk4 l h1 h2
        · rw [he]; exact hk4 i (le_refl i) hin
    have hpre2 : ∀ r s, r < s → s < i + 1 →
        (selSwap d i n).getD r 0 ≤ (selSwap d i n).getD s 0 := by
      intro r s hrs hs
      rcases Nat.lt_or_ge s i with h | h
      · rw [hdr r (by omega), hdr s h]
        exact hpre r s hrs h
      · have hsi : s = i := by omega
        have hr : r < i := by omega
        rw [hsi, hdr r hr, hdi, hk3]
        exact hbound r (selScan d i n).1 hr hk1 hk2
    have hbound2 : ∀ r l, r < i + 1 → i + 1 ≤ l → l < n →
        (selSwap d i n).getD r 0 ≤ (selSwap d i n).getD l 0 := by
      intro r l hr h1 h2
      rcases Nat.lt_or_ge r i with h | h
      · rw [hdr r h]
        rcases hdl l h1 h2 with he | he
        · rw [he]; exact hbound r l h (by omega) h2
        · rw [he]; exact hbound r i h (le_refl i) hin
      · have hri : r = i := by omega
        subst hri
        rw [hdi]
        exact hminle l (by omega) h2
    obtain ⟨hperm, hlen2, hsort⟩ := ih (i + 1) (selSwap d i n) hswl (by omega)
      hpre2 hbound2
    rw [selGo]
    exact ⟨hperm.trans (selSwap_perm d i n hin hlen.symm), hlen2, hsort⟩

theorem rotLoop_lengths (sqrtF : ℚ → ℚ) (l : ℕ) : ∀ (cnt : ℕ)
    (st : List ℚ × List ℚ × ℚ × ℚ × ℚ × ℚ),
    (rotLoop sqrtF l cnt st).1.length = st.1.length ∧
    (rotLoop sqrtF l cnt st).2.1.length = st.2.1.length := by
  intro cnt
  induction cnt with
  | zero => intro st; exact ⟨rfl, rfl⟩
  | succ c ih =>
    intro st
    obtain ⟨d, e, s, c2, p, g⟩ := st
    rw [rotLoop]
    by_cases hc : |g| ≤ |s * e.getD (l + c) 0|
    · rw [if_pos hc]
      obtain ⟨h1, h2⟩ := ih _
      exact ⟨by rw [h1]; simp, by rw [h2]; simp⟩
    · rw [if_neg hc]
      obtain ⟨h1, h2⟩ := ih _
      exact ⟨by rw [h1]; simp, by rw [h2]; simp⟩

theorem qlPassLoop_lengths (sqrtF : ℚ → ℚ) (n l : ℕ) : ∀ (fuel : ℕ)
    (d e d1 e1 : List ℚ), qlPassLoop sqrtF n l fuel d e = .ok (d1, e1) →
    d1.length = d.length ∧ e1.length = e.length := by
  intro fuel
  induction fuel with
  | zero =>
    intro d e d1 e1 h
    rw [qlPassLoop] at h
    by_cases hm : findM d e n l = l
    · rw [if_pos hm] at h
      obtain ⟨h1, h2⟩ : d = d1 ∧ e = e1 := by
        simpa [Prod.ext_iff] using h
      rw [h1, h2]
      exact ⟨rfl, rfl⟩
    · rw [if_neg hm] at h
      exact absurd h (by simp)
  | succ f ih =>
    intro d e d1 e1 h
    rw [qlPassLoop] at h
    by_cases hm : findM d e n l = l
    · rw [if_pos hm] at h
      obtain ⟨h1, h2⟩ : d = d1 ∧ e = e1 := by
        simpa [Prod.ext_iff] using h
      rw [h1, h2]
      exact ⟨rfl, rfl⟩
    · rw [if_neg hm] at h
      dsimp only [] at h
      obtain ⟨h1, h2⟩ := ih _ _ _ _ h
      rw [List.length_set] at h1
      rw [List.length_set, List.length_set] at h2
      refine ⟨h1.trans ?_, h2.trans ?_⟩
      · exact (rotLoop_lengths sqrtF l _ _).1
      · exact (rotLoop_lengths sqrtF l _ _).2

theorem mset_apply (D : Mat) (r c : ℕ) (v : ℚ) (i j : ℕ) :
    mset D r c v i j = if i = r ∧ j = c then v else D i j := rfl

theorem innerA_apply (np i : ℕ) (z pdf : ℕ → ℚ) (hi : i < np) :
    ∀ (m : ℕ) (D : Mat), m ≤ i → (∀ c, c < np → D (np - 1) c = pdf c) →
    ∀ r c, innerA np i z D m r c =
      if c = i ∧ r < m then offV pdf z r i
      else if r = i ∧ c < m then offV pdf z i c
      else D r c := by
  intro m
  induction m with
  | zero =>
    intro D hm hrow r c
    rw [if_neg (show ¬ (c = i ∧ r < 0) by omega),
      if_neg (show ¬ (r = i ∧ c < 0) by omega)]
    rfl
  | succ m ih =>
    intro D hm hrow r c
    have hii := ih D (by omega) hrow
    have hread1 : innerA np i z D m (np - 1) m = pdf m := by
      rw [hii, if_neg (by omega), if_neg (by omega)]
      exact hrow m (by omega)
    have hread2 : innerA np i z D m (np - 1) i = pdf i := by
      rw [hii, if_neg (by omega), if_neg (by omega)]
      exact hrow i hi
    rw [innerA, hread1, hread2]
    have hva : mset (innerA np i z D m) m i (pdf m / (pdf i * (z m - z i)))
        (np - 1) i = pdf i := by
      rw [mset_apply, if_neg (show ¬ (np - 1 = m ∧ i = i) by omega)]
      exact hread2
    have hvb : mset (innerA np i z D m) m i (pdf m / (pdf i * (z m - z i)))
        (np - 1) m = pdf m := by
      rw [mset_apply, if_neg (show ¬ (np - 1 = m ∧ m = i) by omega)]
      exact hread1
    rw [hva, hvb, mset_apply]
    by_cases h1 : r = i ∧ c = m
    · rw [if_pos h1, if_neg (show ¬ (c = i ∧ r < m + 1) by omega),
        if_pos (show r = i ∧ c < m + 1 by omega), offV, h1.2]
    · rw [if_neg h1, mset_apply]
      by_cases h2 : r = m ∧ c = i
      · rw [if_pos h2, if_pos (show c = i ∧ r < m + 1 by omega), offV, h2.1]
      · rw [if_neg h2, hii r c]
        by_cases h3 : c = i ∧ r < m
        · rw [if_pos h3, if_pos (show c = i ∧ r < m + 1 by omega)]
        · rw [if_neg h3]
          by_cases h4 : r = i ∧ c < m
          · rw [if_pos h4, if_neg (show ¬ (c = i ∧ r < m + 1) by omega),
              if_pos (show r = i ∧ c < m + 1 by omega)]
          · rw [if_neg h4, if_neg (show ¬ (c = i ∧ r < m + 1) by omega),
              if_neg (show ¬ (r = i ∧ c < m + 1) by omega)]

theorem outerA_apply (np : ℕ) (z pdf diagf : ℕ → ℚ) (D0 : Mat) :
    ∀ (k : ℕ), k ≤ np →
    ∀ r c, outerA np z diagf (storeLast np pdf D0) k r c =
      if r < k ∧ c < k then (if r = c then diagf r else offV pdf z r c)
      else storeLast np pdf D0 r c := by
  intro k
  induction k with
  | zero =>
    intro hk r c
    rw [if_neg (by omega)]
    rfl
  | succ k ih =>
    intro hk r c
    have hrow : ∀ c2, c2 < np → outerA np z diagf (storeLast np pdf D0) k (np - 1) c2
        = pdf c2 := by
      intro c2 hc2
      rw [ih (by omega), if_neg (by omega), storeLast, if_pos ⟨rfl, hc2⟩]
    rw [outerA, mset]
    by_cases h1 : r = k ∧ c = k
    · rw [if_pos h1, if_pos (show r < k + 1 ∧ c < k + 1 by omega),
        if_pos (show r = c by omega), h1.1]
    · rw [if_neg h1,
        innerA_apply np k z pdf (by omega) k _ (le_refl k) hrow r c]
      by_cases h2 : c = k ∧ r < k
      · rw [if_pos h2, if_pos (show r < k + 1 ∧ c < k + 1 by omega),
          if_neg (show ¬ r = c by omega), h2.1]
      · rw [if_neg h2]
        by_cases h3 : r = k ∧ c < k
        · rw [if_pos h3, if_pos (show r < k + 1 ∧ c < k + 1 by omega),
            if_neg (show ¬ r = c by omega), h3.1]
        · rw [if_neg h3, ih (by omega)]
          by_cases h4 : r < k ∧ c < k
          · rw [if_pos h4, if_pos (show r < k + 1 ∧ c < k + 1 by omega)]
          · rw [if_neg h4, if_neg (show ¬ (r < k + 1 ∧ c < k + 1) by omega)]

theorem aliased_matrix_eq_ref (np : ℕ) (z : List ℚ) (diagf : ℕ → ℚ) (D0 : Mat)
    (pdfA pdfR : ℕ → ℚ) (hnp : 1 ≤ np) (hagree : ∀ j, j < np → pdfA j = pdfR j) :
    outerA np (fun i => z.getD i 0) diagf (storeLast np pdfA D0) np =
      refMat np pdfR (fun i => z.getD i 0) diagf D0 := by
  funext r c
  rw [outerA_apply np _ pdfA diagf D0 np (le_refl np) r c, refMat]
  by_cases h : r < np ∧ c < np
  · rw [if_pos h, if_pos h]
    by_cases hrc : r = c
    · rw [if_pos hrc, if_pos hrc]
    · rw [if_neg hrc, if_neg hrc, offV, offV, hagree r h.1, hagree c h.2]
  · rw [if_neg h, if_neg h, storeLast,
      if_neg (show ¬ (r = np - 1 ∧ c < np) by omega)]

theorem deriv_gauss_eq (maxPoint np : ℕ) (z : List ℚ) (α β : ℚ) (D0 : Mat) :
    DerivativeGauss maxPoint np z α β D0 = DerivativeGaussRef maxPoint np z α β D0 := by
  rw [DerivativeGauss, DerivativeGaussRef, derivativeAliased, derivativeRef]
  by_cases hnp : np = 0
  · rw [if_pos hnp, if_pos hnp]
  · rw [if_neg hnp, if_neg hnp, pdGaussF, pdGaussF]
    cases hc : JacobiPolynomialDerivative maxPoint np z (List.replicate np 0) np α β with
    | error a => rfl
    | ok tl =>
      refine congrArg Except.ok (aliased_matrix_eq_ref np z _ D0 _ _ (by omega) ?_)
      intro j hj
      rw [updSeg, updSeg, if_pos ⟨Nat.zero_le j, by omega⟩,
        if_pos ⟨Nat.zero_le j, by omega⟩]

theorem deriv_radau_left_eq (gammaF : ℚ → ℚ) (maxPoint np : ℕ) (z : List ℚ)
    (α β : ℚ) (D0 : Mat) :
    DerivativeRadauLeft gammaF maxPoint np z α β D0 =
      DerivativeRadauLeftRef gammaF maxPoint np z α β D0 := by
  rw [DerivativeRadauLeft, DerivativeRadauLeftRef, derivativeAliased, derivativeRef]
  by_cases hnp : np = 0
  · rw [if_pos hnp, if_pos hnp]
  · rw [if_neg hnp, if_neg hnp, pdRadauLeftF, pdRadauLeftF]
    cases hc : JacobiPolynomialDerivative maxPoint (np - 1) (z.drop 1)
        (List.replicate (np - 1) 0) (np - 1) α (β + 1) with
    | error a => rfl
    | ok tl =>
      refine congrArg Except.ok (aliased_matrix_eq_ref np z _ D0 _ _ (by omega) ?_)
      intro j hj
      rcases Nat.eq_zero_or_pos j with hj0 | hj1
      · subst hj0
        rw [if_neg (by omega), if_neg (by omega), updSeg, updSeg,
          if_neg (by omega), if_neg (by omega), updF, updF, if_pos rfl, if_pos rfl]
      · rw [if_pos ⟨hj1, hj⟩, if_pos ⟨hj1, hj⟩, updSeg, updSeg,
          if_pos ⟨hj1, by omega⟩, if_pos ⟨hj1, by omega⟩]

theorem deriv_radau_right_eq (gammaF : ℚ → ℚ) (maxPoint np : ℕ) (z : List ℚ)
    (α β : ℚ) (D0 : Mat) :
    DerivativeRadauRight gammaF maxPoint np z α β D0 =
      DerivativeRadauRightRef gammaF maxPoint np z α β D0 := by
  rw [DerivativeRadauRight, DerivativeRadauRightRef, derivativeAliased, derivativeRef]
  by_cases hnp : np = 0
  · rw [if_pos hnp, if_pos hnp]
  · rw [if_neg hnp, if_neg hnp, pdRadauRightF, pdRadauRightF]
    cases hc : JacobiPolynomialDerivative maxPoint (np - 1) z
        (List.replicate (np - 1) 0) (np - 1) (α + 1) β with
    | error a => rfl
    | ok tl =>
      refine congrArg Except.ok (aliased_matrix_eq_ref np z _ D0 _ _ (by omega) ?_)
      intro j hj
      by_cases hje : j = np - 1
      · rw [updF, updF, if_pos hje, if_pos hje]
      · rw [updF, updF, if_neg hje, if_neg hje, if_pos (by omega), if_pos (by omega),
          updSeg, updSeg, if_pos ⟨Nat.zero_le j, by omega⟩,
          if_pos ⟨Nat.zero_le j, by omega⟩]

theorem deriv_lobatto_eq (gammaF : ℚ → ℚ) (maxPoint np : ℕ) (z : List ℚ)
    (α β : ℚ) (D0 : Mat) :
    DerivativeLobatto gammaF maxPoint np z α β D0 =
      DerivativeLobattoRef gammaF maxPoint np z α β D0 := by
  rw [DerivativeLobatto, DerivativeLobattoRef, derivativeAliased, derivativeRef]
  by_cases hnp : np = 0
  · rw [if_pos hnp, if_pos hnp]
  · rw [if_neg hnp, if_neg hnp, pdLobattoF, pdLobattoF]
    cases hc : JacobiPolynomialDerivative maxPoint (np - 2) (z.drop 1)
        (List.replicate (np - 2) 0) (np - 2) (α + 1) (β + 1) with
    | error a => rfl
    | ok tl =>
      refine congrArg Except.ok (aliased_matrix_eq_ref np z _ D0 _ _ (by omega) ?_)
      intro j hj
      by_cases hje : j = np - 1
      · rw [updF, updF, if_pos hje, if_pos hje]
      · rw [updF, updF, if_neg hje, if_neg hje]
        rcases Nat.eq_zero_or_pos j with hj0 | hj1
        · subst hj0
          rw [if_neg (by omega), if_neg (by omega), updSeg, updSeg,
            if_neg (by omega), if_neg (by omega), updF, updF, if_pos rfl, if_pos rfl]
        · rw [if_pos ⟨hj1, by omega⟩, if_pos ⟨hj1, by omega⟩, updSeg, updSeg,
            if_pos ⟨hj1, by omega⟩, if_pos ⟨hj1, by omega⟩]

/-- Claim C8.  In every Derivative getValues variant all np derivative
weights pd are fully computed before any matrix entry that reads them is
written, and no matrix write clobbers a pd entry before its last read: for
every input, the matrix produced with pd aliased to the last matrix row
equals the one produced by the reference implementation that keeps pd in a
separate buffer. -/
theorem claim8_pd_aliasing_equivalence :
    (∀ (maxPoint np : ℕ) (z : List ℚ) (α β : ℚ) (D0 : Mat),
      DerivativeGauss maxPoint np z α β D0 = DerivativeGaussRef maxPoint np z α β D0) ∧
    (∀ (gammaF : ℚ → ℚ) (maxPoint np : ℕ) (z : List ℚ) (α β : ℚ) (D0 : Mat),
      DerivativeRadauLeft gammaF maxPoint np z α β D0 =
        DerivativeRadauLeftRef gammaF maxPoint np z α β D0) ∧
    (∀ (gammaF : ℚ → ℚ) (maxPoint np : ℕ) (z : List ℚ) (α β : ℚ) (D0 : Mat),
      DerivativeRadauRight gammaF maxPoint np z α β D0 =
        DerivativeRadauRightRef gammaF maxPoint np z α β D0) ∧
    (∀ (gammaF : ℚ → ℚ) (maxPoint np : ℕ) (z : List ℚ) (α β : ℚ) (D0 : Mat),
      DerivativeLobatto gammaF maxPoint np z α β D0 =
        DerivativeLobattoRef gammaF maxPoint np z α β D0) :=
  ⟨deriv_gauss_eq, deriv_radau_left_eq, deriv_radau_right_eq, deriv_lobatto_eq⟩

theorem qlOuter_lengths (sqrtF : ℚ → ℚ) (maxIter n : ℕ) : ∀ (cnt l0 : ℕ)
    (d e d1 e1 : List ℚ), qlOuter sqrtF maxIter n cnt l0 d e = .ok (d1, e1) →
    d1.length = d.length ∧ e1.length = e.length := by
  intro cnt
  induction cnt with
  | zero =>
    intro l0 d e d1 e1 h
    obtain ⟨h1, h2⟩ : d = d1 ∧ e = e1 := by
      simpa [qlOuter, Prod.ext_iff] using h
    rw [h1, h2]
    exact ⟨rfl, rfl⟩
  | succ c ih =>
    intro l0 d e d1 e1 h
    rw [qlOuter] at h
    cases hp : qlPassLoop sqrtF n l0 maxIter d e with
    | error a => rw [hp] at h; exact absurd h (by simp)
    | ok pr =>
      obtain ⟨da, ea⟩ := pr
      rw [hp] at h
      obtain ⟨h1, h2⟩ := ih _ _ _ _ _ h
      obtain ⟨h3, h4⟩ := qlPassLoop_lengths sqrtF n l0 maxIter d e da ea hp
      exact ⟨h1.trans h3, h2.trans h4⟩

/-- Claim C9.  When TriQL returns normally, the diagonal array it leaves
behind is sorted ascending and is a permutation of the diagonal held after
the QL reduction phase: the final selection-sort pass (source lines 836-847)
only reorders, never alters, the eigenvalues. -/
theorem claim9_triql_sorted_perm (sqrtF : ℚ → ℚ) (maxIter : ℕ) (d e : List ℚ)
    (n : ℕ) (d1 e1 dOut eOut : List ℚ) (hd : d.length = n)
    (hred : triQLReduce sqrtF maxIter d e n = .ok (d1, e1))
    (hok : TriQL sqrtF maxIter d e n = .ok (dOut, eOut)) :
    List.Sorted (· ≤ ·) dOut ∧ List.Perm dOut d1 := by
  rw [TriQL, hred] at hok
  obtain ⟨ho1, ho2⟩ : selectionPass d1 n = dOut ∧ e1 = eOut := by
    simpa [Prod.ext_iff] using hok
  have hd1 : d1.length = n := by
    obtain ⟨hl, _⟩ := qlOuter_lengths sqrtF maxIter n n 0 d e d1 e1 hred
    rw [hl, hd]
  rcases Nat.eq_zero_or_pos n with hn0 | hn1
  · have hnil : d1 = [] := List.eq_nil_of_length_eq_zero (by rw [hd1, hn0])
    have hsp : selectionPass d1 n = d1 := by
      rw [hn0, selectionPass, selGo]
    rw [← ho1, hsp, hnil]
    exact ⟨List.sorted_nil, List.Perm.refl []⟩
  · obtain ⟨hperm, hlen, hsort⟩ := selGo_spec n (n - 1) 0 d1 hd1 (by omega)
      (fun r s h1 h2 => absurd h2 (by omega))
      (fun r l h1 _ _ => absurd h1 (by omega))
    rw [← ho1, selectionPass]
    refine ⟨List.pairwise_iff_getElem.mpr ?_, hperm⟩
    intro i j hi hj hij
    have hi2 := hsort i j hij (by omega)
    rw [List.getD_eq_getElem _ _ hi, List.getD_eq_getElem _ _ hj] at hi2
    exact hi2

/-- Witness for claim C9 at n = 1, d = (5), e = (0): the QL phase is a no-op
and the returned diagonal (5) is sorted and a permutation of itself. -/
theorem claim9_triql_sorted_perm_witness :
    List.Sorted (· ≤ ·) ([5] : List ℚ) ∧ List.Perm ([5] : List ℚ) [5] :=
  claim9_triql_sorted_perm (fun _ => 0) 1 [5] [0] 1 [5] [0] [5] [0] rfl rfl rfl

/-- Claim C10.  For degree n = 0 both JacobiZeros strategies return
immediately (source lines 697-698 and 743-744) and leave every entry of the
output buffer unchanged. -/
theorem claim10_zero_degree_frame (guess : ℕ → ℚ) (tol : ℚ)
    (gammaF pow2F sqrtF : ℚ → ℚ) (maxIter maxPoint : ℕ) (z : List ℚ) (α β : ℚ) :
    JacobiZerosPolyDeflation guess tol maxIter maxPoint z 0 α β = .ok z ∧
    JacobiZerosTriDiagonal gammaF pow2F sqrtF maxIter maxPoint z 0 α β = .ok z :=
  ⟨by rw [JacobiZerosPolyDeflation, if_pos rfl],
   by rw [JacobiZerosTriDiagonal, if_pos rfl]⟩

end Polylib
